/-
Verification of the OpenCrank agent-runtime core against its specification.

The definitions below are a shallow embedding of the C++ sources:
  * ContentChunker            from src/core/content_chunker.cpp
  * AgentConfig, Agent::run   from include/opencrank/core/agent.hpp and src/core/agent.cpp
  * ContextManager            from src/core/context_manager.cpp
  * Sandbox                   from src/core/sandbox.cpp
  * TaskStore                 from src/memory/store.cpp
  * Memory FTS sanitation     modelled from the spec (see the doc comments)

C++ std::string values are modelled as Lean String (content treated as a
sequence of characters; the C++ code is byte-oriented but no claim depends
on the distinction).  size_t arithmetic is Nat except where wrap-around is
observable, which is modelled explicitly.  External collaborators (the model
adapter, tool executors, realpath, the memory tool) are function parameters.
-/
import Mathlib

namespace OpenCrank

/-! ### Generic string / association-list helpers -/

/-- Does `pat` occur as the leading segment of `hay`? -/
def startsWithL : List Char → List Char → Bool
  | [], _ => true
  | _ :: _, [] => false
  | p :: ps, c :: cs => p = c && startsWithL ps cs

/-- Index of the first occurrence of `pat` in `hay`, like std::string::find. -/
def findSub (pat : List Char) : List Char → Option Nat
  | [] => if startsWithL pat [] then some 0 else none
  | c :: t =>
    if startsWithL pat (c :: t) then some 0
    else (findSub pat t).map (· + 1)

/-- `hay.find(pat) != npos` in C++. -/
def hasSub (hay : List Char) (pat : String) : Bool :=
  (findSub pat.data hay).isSome

/-- `hay.find(pat, pos)` in C++. -/
def findSubFrom (hay : List Char) (pat : String) (pos : Nat) : Option Nat :=
  (findSub pat.data (hay.drop pos)).map (· + pos)

/-- Index of the first character of `hay` (at or after `pos`) drawn from `cs`,
like `find_first_of`. -/
def findFirstOfFrom (hay : List Char) (cs : List Char) (pos : Nat) : Option Nat :=
  ((hay.drop pos).findIdx? (fun c => cs.contains c)).map (· + pos)

/-- Whitespace set used by the C++ trimming code: `" \t\n\r"`. -/
def isWsChar (c : Char) : Bool :=
  c = ' ' || c = '\t' || c = '\n' || c = '\r'

/-- Trim the whitespace characters `" \t\n\r"` from both ends. -/
def trimWs (l : List Char) : List Char :=
  ((l.dropWhile isWsChar).reverse.dropWhile isWsChar).reverse

/-- Association-list lookup, modelling `std::map::find` by key. -/
def alookup {β : Type} (k : String) : List (String × β) → Option β
  | [] => none
  | (k2, v) :: rest => if k2 = k then some v else alookup k rest

/-- Association-list overwrite, modelling `std::map::operator[] =`. -/
def setEntry {β : Type} (k : String) (v : β) (m : List (String × β)) : List (String × β) :=
  (k, v) :: m.filter (fun p => p.1 ≠ k)

/-! ### Content Chunker (src/core/content_chunker.cpp) -/

/-- Stored large content, from `struct ChunkedContent` (content_chunker.hpp). -/
structure ChunkedContent where
  id : String
  full_content : String
  source : String
  chunk_size : Nat
  total_chunks : Nat
deriving DecidableEq

/-- In-memory content store, from `class ContentChunker`. -/
structure ContentChunker where
  storage : List (String × ChunkedContent)
  next_id : Nat
deriving DecidableEq

/-- `ContentChunker::store` (content_chunker.cpp lines 72-89).  A chunk size of
0 is replaced by 8000; `total_chunks = (size + chunk_size - 1) / chunk_size`.
Returns the fresh id and the updated chunker. -/
def ContentChunker.store (ck : ContentChunker) (content source : String)
    (chunk_size : Nat) : String × ContentChunker :=
  let cs := if chunk_size = 0 then 8000 else chunk_size
  let id := "chunk_" ++ toString ck.next_id
  let cc : ChunkedContent :=
    { id := id, full_content := content, source := source, chunk_size := cs
      total_chunks := (content.length + cs - 1) / cs }
  (id, { storage := setEntry id cc ck.storage, next_id := ck.next_id + 1 })

/-- `ContentChunker::get_chunk` (content_chunker.cpp lines 91-130).  The HTML
stripper `strip_html_for_ai` (utils.cpp) is an external collaborator passed
as `stripHtml`; every claim below uses `clean_html = false`. -/
def ContentChunker.get_chunk (stripHtml : String → String) (ck : ContentChunker)
    (id : String) (chunk_index : Nat) (clean_html : Bool) : String :=
  match alookup id ck.storage with
  | none => "Error: Content ID '" ++ id ++ "' not found."
  | some cc =>
    if cc.total_chunks ≤ chunk_index then
      "Error: Chunk index " ++ toString chunk_index ++ " out of range. Total chunks: "
        ++ toString cc.total_chunks
    else
      let start := chunk_index * cc.chunk_size
      let len := min cc.chunk_size (cc.full_content.length - start)
      let slice : String := ⟨(cc.full_content.data.drop start).take len⟩
      let chunk_content := if clean_html then stripHtml slice else slice
      ("[Chunk " ++ toString (chunk_index + 1) ++ "/" ++ toString cc.total_chunks
          ++ " from " ++ cc.source ++ (if clean_html then " (HTML cleaned)" else "")
          ++ "]\n")
        ++ chunk_content
        ++ (if chunk_index + 1 < cc.total_chunks then
              "\n\n[Use content_chunk tool with id=\"" ++ id ++ "\" and chunk="
                ++ toString (chunk_index + 1) ++ " for next chunk]"
            else "\n\n[End of content]")

/-- `ContentChunker::get_total_chunks` (content_chunker.cpp lines 333-339). -/
def ContentChunker.get_total_chunks (ck : ContentChunker) (id : String) : Nat :=
  match alookup id ck.storage with
  | none => 0
  | some cc => cc.total_chunks

/-- `ContentChunker::has` (content_chunker.cpp lines 320-322). -/
def ContentChunker.hasId (ck : ContentChunker) (id : String) : Bool :=
  (alookup id ck.storage).isSome

/-! ### Agent configuration and tool-result formatting (agent.hpp, agent.cpp) -/

/-- `struct AgentConfig` (agent.hpp lines 117-135). -/
structure AgentConfig where
  max_iterations : Int
  max_consecutive_errors : Int
  echo_tool_calls : Bool
  verbose_results : Bool
  max_tool_result_size : Nat
  auto_chunk_large_results : Bool
  chunk_size : Nat
  context_size : Nat
deriving DecidableEq

/-- The `AgentConfig()` default constructor values. -/
def AgentConfig.default : AgentConfig :=
  { max_iterations := 30, max_consecutive_errors := 5, echo_tool_calls := false
    verbose_results := false, max_tool_result_size := 15000
    auto_chunk_large_results := true, chunk_size := 0, context_size := 0 }

/-- `AgentConfig::effective_chunk_size` (agent.hpp lines 140-148). -/
def AgentConfig.effective_chunk_size (c : AgentConfig) : Nat :=
  if 0 < c.chunk_size then c.chunk_size
  else if 0 < c.context_size then
    let derived := (c.context_size * 4) / 10
    if 2000 < derived then derived else 2000
  else 8000

/-- `struct AgentToolResult` (agent.hpp lines 51-80). -/
structure AgentToolResult where
  success : Bool
  output : String
  error : String
  should_continue : Bool
deriving DecidableEq

def AgentToolResult.ok (output : String) : AgentToolResult :=
  { success := true, output := output, error := "", should_continue := true }

def AgentToolResult.fail (err : String) : AgentToolResult :=
  { success := false, output := "", error := err, should_continue := true }

def AgentToolResult.stop (output : String) : AgentToolResult :=
  { success := true, output := output, error := "", should_continue := false }

/-- `Agent::format_tool_result` (agent.cpp lines 714-754).  When the result is
successful, auto-chunking is on, and the output exceeds
`max_tool_result_size`, the output is stored in the chunker with the default
chunk-size argument (0, per the declaration in content_chunker.hpp line 36)
and a summary is returned; otherwise the raw output or the error is framed.
Returns the framed text and the (possibly updated) chunker. -/
def formatToolResult (cfg : AgentConfig) (ck : ContentChunker) (tool_name : String)
    (r : AgentToolResult) : String × ContentChunker :=
  let head := "[TOOL_RESULT tool=" ++ tool_name ++ " success="
    ++ (if r.success then "true" else "false") ++ "]\n"
  if r.success then
    if cfg.auto_chunk_large_results && decide (cfg.max_tool_result_size < r.output.length) then
      let p := ck.store r.output tool_name 0
      let chunk_id := p.1
      let ck2 := p.2
      let total_chunks := ck2.get_total_chunks chunk_id
      let preview_size := min 2000 r.output.length
      let body :=
        "Content too large (" ++ toString r.output.length ++ " characters). Stored as '"
          ++ chunk_id ++ "' with " ++ toString total_chunks ++ " chunks.\n\n"
          ++ "=== Preview (first " ++ toString preview_size ++ " characters) ===\n"
          ++ String.mk (r.output.data.take preview_size)
          ++ (if preview_size < r.output.length then "\n... [content truncated] ...\n" else "")
          ++ "\n\n=== To access full content ===\n"
          ++ "Use 'content_chunk' tool with id=\"" ++ chunk_id
          ++ "\" and chunk=0 to get first chunk.\n"
          ++ "Use 'content_search' tool with id=\"" ++ chunk_id
          ++ "\" and query=\"your search\" to find specific content.\n"
          ++ "Total chunks available: " ++ toString total_chunks
      (head ++ body ++ "\n[/TOOL_RESULT]", ck2)
    else
      (head ++ r.output ++ "\n[/TOOL_RESULT]", ck)
  else
    (head ++ "Error: " ++ r.error ++ "\n[/TOOL_RESULT]", ck)

/-! ### Conversation messages and the model-adapter contract (ai.hpp / ai.cpp) -/

/-- `enum MessageRole`. -/
inductive MessageRole where
  | system
  | user
  | assistant
deriving DecidableEq

/-- `struct ConversationMessage`: a role and a content string. -/
structure ConversationMessage where
  role : MessageRole
  content : String
deriving DecidableEq

def ConversationMessage.user (s : String) : ConversationMessage := ⟨MessageRole.user, s⟩

def ConversationMessage.assistant (s : String) : ConversationMessage := ⟨MessageRole.assistant, s⟩

def ConversationMessage.systemMsg (s : String) : ConversationMessage := ⟨MessageRole.system, s⟩

/-- The part of `CompletionResult` the Agent loop reads. -/
structure CompletionResult where
  success : Bool
  content : String
  error : String
deriving DecidableEq

/-! ### Token-limit error classification and history truncation (agent.cpp) -/

def lowerData (s : String) : List Char := s.data.map Char.toLower

/-- `Agent::is_token_limit_error` (agent.cpp lines 786-801). -/
def isTokenLimitError (error : String) : Bool :=
  let el := lowerData error
  (hasSub el "exceeds" && (hasSub el "context" || hasSub el "token"))
    || hasSub el "too long" || hasSub el "context length" || hasSub el "maximum context"
    || hasSub el "token limit" || hasSub el "context size"

/-- Strategy 1 of `Agent::try_truncate_history` (agent.cpp lines 814-864): a
user message containing `[TOOL_RESULT` and longer than 10000 characters has
its body truncated in place; `some` is the replacement, `none` means the
message is left alone.  The `content_len` subtraction is size_t arithmetic,
modelled with its 64-bit wrap-around. -/
def truncOne (msg : ConversationMessage) : Option ConversationMessage :=
  if msg.role = MessageRole.user ∧ hasSub msg.content.data "[TOOL_RESULT" = true
      ∧ 10000 < msg.content.length then
    match findSub "[/TOOL_RESULT]".data msg.content.data with
    | none => none
    | some result_end =>
      let d := msg.content.data
      let result_start := (findSub "[TOOL_RESULT".data d).getD 0
      let tool_name :=
        match findSubFrom d "tool=" result_start with
        | none => "unknown"
        | some ns0 =>
          match findFirstOfFrom d [' ', ']'] (ns0 + 5) with
          | none => "unknown"
          | some name_end => String.mk ((d.drop (ns0 + 5)).take (name_end - (ns0 + 5)))
      let content_start :=
        match findSubFrom d "]\n" result_start with
        | none => result_start
        | some p => p + 2
      let content_len :=
        if content_start ≤ result_end then result_end - content_start
        else 2 ^ 64 - (content_start - result_end)
      some ⟨MessageRole.user,
        "[TOOL_RESULT tool=" ++ tool_name ++ " success=true]\n"
          ++ "[Content truncated to fit context window - original was "
          ++ toString msg.content.length ++ " characters]\n"
          ++ (if 2000 < content_len then
                String.mk ((d.drop content_start).take 2000) ++ "\n... [truncated] ..."
              else String.mk ((d.drop content_start).take content_len))
          ++ "\n[/TOOL_RESULT]"⟩
  else none

/-- The synthetic assistant bridge inserted by truncation strategy 2. -/
def bridgeMsg : ConversationMessage :=
  ⟨MessageRole.assistant, "[Earlier conversation context was truncated to fit context window.]"⟩

/-- The alternation-enforcing copy loop of strategy 2 (agent.cpp lines
897-905): skip any message whose role equals the previous kept role. -/
def altKeep (last_role : MessageRole) : List ConversationMessage → List ConversationMessage
  | [] => []
  | m :: rest => if m.role = last_role then altKeep last_role rest else m :: altKeep m.role rest

/-- The backward walk of strategy 2 (agent.cpp lines 886-894): the most recent
user message among the last four, else the last index. -/
def lastStartIdx (history : List ConversationMessage) : Nat :=
  let n := history.length
  match ((List.range 4).map (· + 1)).find? (fun b =>
      decide (b < n)
        && decide ((history.getD (n - b) ⟨MessageRole.user, ""⟩).role = MessageRole.user)) with
  | some b => n - b
  | none => n - 1

/-- `Agent::try_truncate_history` (agent.cpp lines 803-915).  `some h` models
a `true` return with the history replaced by `h`; `none` models `false`. -/
def tryTruncateHistory (history : List ConversationMessage) :
    Option (List ConversationMessage) :=
  if history.length < 3 then none
  else
    let marked := history.map (fun m =>
      match truncOne m with
      | some m2 => (m2, true)
      | none => (m, false))
    if marked.any (fun p => p.2) then some (marked.map (fun p => p.1))
    else if 6 < history.length then
      match history with
      | [] => none
      | h0 :: _ =>
        let front := if h0.role = MessageRole.user then [h0, bridgeMsg] else [h0]
        let last_role := if h0.role = MessageRole.user then MessageRole.assistant else h0.role
        some (front ++ altKeep last_role (history.drop (lastStartIdx history)))
    else none

/-! ### Parsed tool calls, dedup keys and response-text extraction -/

/-- `struct ParsedToolCall` (agent.hpp lines 101-111); `params_dump` stands
for `params.dump()`, the canonical JSON text of the arguments. -/
structure ParsedToolCall where
  tool_name : String
  params_dump : String
  raw_content : String
  start_pos : Nat
  end_pos : Nat
  valid : Bool
deriving DecidableEq

/-- The dedup key (agent.cpp lines 1173-1174):
`tool_name + ":" + (valid ? params.dump() : raw_content)`. -/
def dedupKey (c : ParsedToolCall) : String :=
  c.tool_name ++ ":" ++ (if c.valid then c.params_dump else c.raw_content)

/-- The copy loop of `Agent::extract_response_text` (agent.cpp lines 762-776). -/
def extractLoop (d : List Char) : Nat → List ParsedToolCall → List Char
  | pos, [] => d.drop pos
  | pos, c :: rest =>
    (if pos < c.start_pos then (d.drop pos).take (c.start_pos - pos) else [])
      ++ extractLoop d c.end_pos rest

/-- `Agent::extract_response_text` (agent.cpp lines 756-784). -/
def extractResponseText (response : String) (calls : List ParsedToolCall) : String :=
  if calls.isEmpty then response
  else String.mk (trimWs (extractLoop response.data 0 calls))

/-! ### Intent-to-act heuristic data (agent.cpp lines 1031-1120) -/

def intentPatterns : List String :=
  ["let me create", "let me write", "let me read", "let me check", "let me look",
   "let me search", "let me fetch", "let me browse", "let me run", "let me execute",
   "let me try", "let me make", "let me update", "let me modify", "let me delete",
   "let me remove", "let me add", "let me open", "let me download", "let me get",
   "let me see", "let me find", "let me use", "let me install",
   "i'll create", "i'll write", "i'll read", "i'll check", "i'll run", "i'll execute",
   "i'll fetch", "i'll browse", "i'll search", "i'll make", "i'll use",
   "i will create", "i will write", "i will run",
   "i need to create", "i need to write", "i need to read", "i need to check",
   "i need to run", "i need to fetch", "i need to browse", "i need to search",
   "i need to make",
   "now i'll", "now let me",
   "let's do that", "let's do it", "let's create", "let's check", "let's write",
   "let's run", "let's look", "let's fetch", "let's search", "let's make",
   "i should check", "i should write", "i should run", "i should do", "i should use the",
   "i'll do that", "doing that now", "executing now", "running the command now",
   "let's execute it", "i'll emit the tool call", "i need to emit", "emitting tool call",
   "calling the tool", "i can handle using the"]

/-- The goad user turn appended when intent is detected without a call
(agent.cpp lines 1138-1142). -/
def goadPrompt : String :=
  "You said you would take action but didn't use a tool. Stop planning and ACT NOW. Emit the tool call immediately:\n\n\x7b\"tool\": \"TOOLNAME\", \"arguments\": \x7b\"param\": \"value\"\x7d\x7d\n\nDo NOT explain. Do NOT plan. Just emit the tool call."

/-- Synthetic result for a duplicate call inside one response
(agent.cpp lines 1180-1183). -/
def dupSameResponse (name : String) : String :=
  "[TOOL_RESULT tool=" ++ name ++ " success=true]\n"
    ++ "(Duplicate call skipped - same tool with same parameters was already called in this response)\n[/TOOL_RESULT]\n"

/-- Synthetic result for a call repeated from the immediately previous
iteration (agent.cpp lines 1198-1202). -/
def dupPrevIteration (name : String) : String :=
  "[TOOL_RESULT tool=" ++ name ++ " success=true]\n"
    ++ "(This exact tool call was already made in the previous iteration. The result has not changed. Please use the previous result or try a different approach.)\n[/TOOL_RESULT]\n"

/-! ### Per-iteration call processing (agent.cpp lines 1160-1223) -/

/-- Accumulator for one iteration's tool-call processing.  The fields mirror
the loop locals: `results_oss`, `recent_tool_calls`, `seen_in_response`,
`should_continue`, plus run-level `tool_calls_made` / `tools_used` and the
chunker.  `executedKeys` / `skippedSame` / `skippedPrev` record, per dedup
key, whether `execute_tool` ran or a synthetic result was substituted. -/
structure ProcOut where
  resultsText : String
  recent : List (String × Int)
  seen : List String
  executedKeys : List String
  skippedSame : List String
  skippedPrev : List String
  tool_calls_made : Int
  tools_used : List String
  should_continue : Bool
  chunker : ContentChunker

def ProcOut.init (recent : List (String × Int)) (ck : ContentChunker)
    (tools_used : List String) (tool_calls_made : Int) : ProcOut :=
  ⟨"", recent, [], [], [], [], tool_calls_made, tools_used, true, ck⟩

/-- The executing arm of the loop body (agent.cpp lines 1206-1222): record the
key in `recent_tool_calls` at the current iteration, bump the counters, run
the executor, and append the formatted result. -/
def execStep (cfg : AgentConfig) (exec : ParsedToolCall → AgentToolResult) (iter : Int)
    (call : ParsedToolCall) (key : String) (st : ProcOut) : ProcOut :=
  let tr := exec call
  let fr := formatToolResult cfg st.chunker call.tool_name tr
  { st with recent := setEntry key iter st.recent
            tool_calls_made := st.tool_calls_made + 1
            tools_used := if st.tools_used.contains call.tool_name then st.tools_used
                          else st.tools_used ++ [call.tool_name]
            executedKeys := st.executedKeys ++ [key]
            resultsText := st.resultsText ++ fr.1 ++ "\n"
            chunker := fr.2
            should_continue := st.should_continue && tr.should_continue }

/-- The per-call loop of one iteration (agent.cpp lines 1169-1223): skip exact
duplicates within the response, substitute a synthetic result for a call whose
key was executed in the immediately previous iteration, execute everything
else. -/
def processCalls (cfg : AgentConfig) (exec : ParsedToolCall → AgentToolResult) (iter : Int) :
    List ParsedToolCall → ProcOut → ProcOut
  | [], st => st
  | call :: rest, st =>
    let key := dedupKey call
    if st.seen.contains key then
      processCalls cfg exec iter rest
        { st with resultsText := st.resultsText ++ dupSameResponse call.tool_name
                  skippedSame := st.skippedSame ++ [key] }
    else
      let st1 := { st with seen := st.seen ++ [key] }
      match alookup key st1.recent with
      | some p =>
        if p = iter - 1 then
          processCalls cfg exec iter rest
            { st1 with resultsText := st1.resultsText ++ dupPrevIteration call.tool_name
                       skippedPrev := st1.skippedPrev ++ [key] }
        else processCalls cfg exec iter rest (execStep cfg exec iter call key st1)
      | none => processCalls cfg exec iter rest (execStep cfg exec iter call key st1)

/-! ### The agent loop (Agent::run, agent.cpp lines 917-1277) -/

/-- The Agent's external collaborators: the model adapter (`ai->chat`; the
constant augmented system prompt is absorbed into the closure), the tool-call
parser `parse_tool_calls`, and `execute_tool` over the registered tools. -/
structure RunEnv where
  chat : List ConversationMessage → CompletionResult
  parse : String → List ParsedToolCall
  exec : ParsedToolCall → AgentToolResult
  configured : Bool

/-- The loop state of `Agent::run`: the history plus the locals
`consecutive_errors`, `token_limit_retries`, `recent_tool_calls`,
`accumulated_response` and the result counters.  `truncations`, `emissions`
and `executions` are pure instrumentation (they influence nothing). -/
structure LoopSt where
  history : List ConversationMessage
  iterations : Int
  consecutive_errors : Int
  token_limit_retries : Int
  recent : List (String × Int)
  accumulated : String
  tool_calls_made : Int
  tools_used : List String
  chunker : ContentChunker
  truncations : Nat
  emissions : List (Int × List String)
  executions : List (Int × String)

/-- `struct AgentResult` (agent.hpp lines 155-166) plus the final history and
the instrumentation fields. -/
structure AgentRunResult where
  success : Bool
  paused : Bool
  error : String
  final_response : String
  pause_message : String
  iterations : Int
  tool_calls_made : Int
  tools_used : List String
  history : List ConversationMessage
  truncations : Nat
  emissions : List (Int × List String)
  executions : List (Int × String)

/-- A fatal return (agent.cpp lines 991-996 and 1000-1006): pop the history
back down to `initial` entries and fail. -/
def mkFail (st : LoopSt) (initial : Nat) (err : String) : AgentRunResult :=
  { success := false, paused := false, error := err, final_response := ""
    pause_message := "", iterations := st.iterations, tool_calls_made := st.tool_calls_made
    tools_used := st.tools_used, history := st.history.take initial
    truncations := st.truncations, emissions := st.emissions, executions := st.executions }

/-- A successful return (agent.cpp lines 1149-1157 and 1237-1242). -/
def mkSuccess (st : LoopSt) (final : String) : AgentRunResult :=
  { success := true, paused := false, error := "", final_response := final
    pause_message := "", iterations := st.iterations, tool_calls_made := st.tool_calls_made
    tools_used := st.tools_used, history := st.history
    truncations := st.truncations, emissions := st.emissions, executions := st.executions }

/-- The paused return at max iterations (agent.cpp lines 1253-1276). -/
def mkPause (cfg : AgentConfig) (st : LoopSt) : AgentRunResult :=
  let pm := "⏸️ **Task paused after " ++ toString cfg.max_iterations ++ " iterations**\n\n"
    ++ (if st.accumulated = "" then "" else "Progress so far:\n" ++ st.accumulated ++ "\n\n")
    ++ "The AI has made " ++ toString st.tool_calls_made ++ " tool calls "
    ++ "and needs more iterations to complete the task.\n\n"
    ++ "**Options:**\n"
    ++ "• `/continue` - Allow 15 more iterations\n"
    ++ "• `/continue <N>` - Allow N more iterations\n"
    ++ "• `/continue no-stop` - Remove iteration limit (use with caution)\n"
    ++ "• `/cancel` - Stop the task\n"
  { success := false, paused := true, error := "", final_response := pm
    pause_message := pm, iterations := st.iterations, tool_calls_made := st.tool_calls_made
    tools_used := st.tools_used, history := st.history
    truncations := st.truncations, emissions := st.emissions, executions := st.executions }

/-- The `while (result.iterations < config.max_iterations)` loop of
`Agent::run` (agent.cpp lines 959-1251), with the remaining iteration budget
as fuel. -/
def runLoop (env : RunEnv) (cfg : AgentConfig) (initial : Nat) :
    Nat → LoopSt → AgentRunResult
  | 0, st => mkPause cfg st
  | fuel + 1, st0 =>
    let st := { st0 with iterations := st0.iterations + 1 }
    let ai := env.chat st.history
    if ai.success = false then
      if isTokenLimitError ai.error then
        let st := { st with token_limit_retries := st.token_limit_retries + 1 }
        if st.token_limit_retries ≤ 2 then
          match tryTruncateHistory st.history with
          | some h2 =>
            runLoop env cfg initial fuel
              { st with history := h2, consecutive_errors := 0
                        truncations := st.truncations + 1 }
          | none =>
            mkFail st initial
              "Context window exceeded and recovery failed. Try a simpler request or use smaller data."
        else
          mkFail st initial
            "Context window exceeded and recovery failed. Try a simpler request or use smaller data."
      else
        let st := { st with consecutive_errors := st.consecutive_errors + 1 }
        if cfg.max_consecutive_errors ≤ st.consecutive_errors then
          mkFail st initial ("Too many consecutive AI errors: " ++ ai.error)
        else runLoop env cfg initial fuel st
    else
      let st := { st with consecutive_errors := 0, token_limit_retries := 0 }
      let response := ai.content
      let calls := env.parse response
      let st := { st with emissions := st.emissions ++ [(st.iterations, calls.map dedupKey)] }
      if calls.isEmpty then
        let rl := lowerData response
        let is_asking_question := hasSub rl "?"
          && (hasSub rl "which" || hasSub rl "what" || hasSub rl "where"
              || hasSub rl "could you" || hasSub rl "would you" || hasSub rl "do you want")
        let indicates_tool_intent :=
          !is_asking_question && intentPatterns.any (fun p => hasSub rl p)
        if indicates_tool_intent && !is_asking_question
            && decide (st.iterations < cfg.max_iterations) then
          runLoop env cfg initial fuel
            { st with history := st.history
                ++ [ConversationMessage.assistant response, ConversationMessage.user goadPrompt] }
        else
          mkSuccess { st with history := st.history ++ [ConversationMessage.assistant response] }
            response
      else
        let out := processCalls cfg env.exec st.iterations calls
          (ProcOut.init st.recent st.chunker st.tools_used st.tool_calls_made)
        let text_response := extractResponseText response calls
        let st := { st with
          history := st.history
            ++ [ConversationMessage.assistant response, ConversationMessage.user out.resultsText]
          recent := out.recent, chunker := out.chunker
          tools_used := out.tools_used, tool_calls_made := out.tool_calls_made
          executions := st.executions ++ out.executedKeys.map (fun k => (st.iterations, k)) }
        if out.should_continue = false then
          mkSuccess st (if text_response = "" then "Task completed." else text_response)
        else
          runLoop env cfg initial fuel
            { st with accumulated :=
                if text_response = "" then st.accumulated
                else if st.accumulated = "" then text_response
                else st.accumulated ++ "\n\n" ++ text_response }

/-- `Agent::run` (agent.cpp lines 917-1277): fail fast when unconfigured,
record the initial history length, append the user turn, and loop.  `ck0` is
the agent's chunker member; the system prompt is absorbed into `env.chat`. -/
def agentRun (env : RunEnv) (user_message : String) (history : List ConversationMessage)
    (cfg : AgentConfig) (ck0 : ContentChunker) : AgentRunResult :=
  if env.configured = false then
    { success := false, paused := false, error := "AI not configured", final_response := ""
      pause_message := "", iterations := 0, tool_calls_made := 0, tools_used := []
      history := history, truncations := 0, emissions := [], executions := [] }
  else
    runLoop env cfg history.length cfg.max_iterations.toNat
      { history := history ++ [ConversationMessage.user user_message], iterations := 0
        consecutive_errors := 0, token_limit_retries := 0, recent := []
        accumulated := "", tool_calls_made := 0, tools_used := [], chunker := ck0
        truncations := 0, emissions := [], executions := [] }

/-! ### C1 / C2: history preservation across Agent runs -/

/-- A seven-message seed history, none containing `[TOOL_RESULT`. -/
def c1History : List ConversationMessage :=
  [ConversationMessage.user "m0", ConversationMessage.assistant "m1",
   ConversationMessage.user "m2", ConversationMessage.assistant "m3",
   ConversationMessage.user "m4", ConversationMessage.assistant "m5",
   ConversationMessage.user "m6"]

/-- A model that fails every call with a context-limit error.  The parser is
never invoked on this run (no model call succeeds); `parse_tool_calls` of any
text is irrelevant here and modelled as returning no calls. -/
def c1Env : RunEnv :=
  { chat := fun _ => ⟨false, "", "prompt exceeds context length"⟩
    parse := fun _ => [], exec := fun _ => AgentToolResult.ok "x", configured := true }

/-- A model that fails with a context-limit error until the history has been
truncated down to at most three messages, then answers plainly.  The reply
"hello" contains no brace, so `parse_tool_calls` returns no calls
(agent.cpp lines 530-533). -/
def c2Env : RunEnv :=
  { chat := fun h => if h.length ≤ 3 then ⟨true, "hello", ""⟩
      else ⟨false, "", "prompt exceeds context length"⟩
    parse := fun _ => [], exec := fun _ => AgentToolResult.ok "x", configured := true }

/-- Iterations `it, it+1, …` of the agent loop acting on the
`recent_tool_calls` map (each iteration processing its parsed calls as
`Agent::run` does). -/
def foldIterations (cfg : AgentConfig) (ex : ParsedToolCall → AgentToolResult)
    (ck : ContentChunker) (tools : List String) (made : Int) :
    Int → List (List ParsedToolCall) → List (String × Int) → List (String × Int)
  | _, [], recent => recent
  | it, L :: Ls, recent =>
    foldIterations cfg ex ck tools made (it + 1) Ls
      (processCalls cfg ex it L (ProcOut.init recent ck tools made)).recent

/-! ### Context Manager (src/core/context_manager.cpp) -/

/-- `struct ContextManagerConfig` (context_manager.hpp lines 30-44); the
double `usage_threshold` is embedded as a rational. -/
structure ContextManagerConfig where
  usage_threshold : Rat
  max_context_chars : Nat
  reserve_for_response : Nat
  max_resume_chars : Nat
  auto_save_memory : Bool

/-- The `ContextManagerConfig()` default constructor values. -/
def ContextManagerConfig.default : ContextManagerConfig :=
  { usage_threshold := 3 / 4, max_context_chars := 16000, reserve_for_response := 4000
    max_resume_chars := 3000, auto_save_memory := true }

/-- `ContextManager::estimate_chars` (context_manager.cpp lines 36-43). -/
def estimateChars (messages : List ConversationMessage) : Nat :=
  messages.foldl (fun acc m => acc + m.content.length + 20) 0

/-- `struct ContextUsage` (context_manager.hpp lines 50-63). -/
structure ContextUsage where
  system_prompt_chars : Nat
  history_chars : Nat
  total_chars : Nat
  budget_chars : Nat
  usage_ratio : Rat
  needs_resume : Bool

/-- `ContextManager::estimate_usage` (context_manager.cpp lines 45-65).
`budget_chars` is a size_t difference; the claims below never reach the
wrap-around case, which is modelled by truncated subtraction together with
the code's own `budget > 0` guard. -/
def estimateUsage (cfg : ContextManagerConfig) (history : List ConversationMessage)
    (system_prompt : String) : ContextUsage :=
  let spc := system_prompt.length
  let hc := estimateChars history
  let total := spc + hc
  let budget := cfg.max_context_chars - cfg.reserve_for_response
  let ratio : Rat := if 0 < budget then (total : Rat) / (budget : Rat) else 1
  { system_prompt_chars := spc, history_chars := hc, total_chars := total
    budget_chars := budget, usage_ratio := ratio
    needs_resume := decide (cfg.usage_threshold ≤ ratio) }

/-- `ContextManager::build_resume_prompt` (context_manager.cpp lines 75-94). -/
def buildResumePrompt : String :=
  "You are about to run out of context window space. Your task now is to create a RESUME of everything that has happened in this conversation. This resume will capture the essence of the conversation that will be used to restore your memory after the context is cleared.\n\nThe resume MUST include:\n1. **Your original instructions and role** - What system prompt/personality you were given\n2. **What the user asked for** - The original request and any follow-up requests\n3. **What you did** - Brief overview of tools called, actions taken, results obtained\n4. **Current state** - Where you are in the task, what's pending\n5. **Important facts** - Any key information, file paths, URLs, names mentioned\n6. **What to do next** - Clear instructions for continuing the task\n\nWhat to avoid in the resume:\n- Do NOT include irrelevant chit-chat or pleasantries\n- Do NOT include any content that can be easily re-read from the conversation (e.g., simple acknowledgments)\n- Do NOT include parameters used on the toolsWrite the resume as a structured document. Be comprehensive but concise. Do NOT use any tools. Just output the resume text directly."

/-- `ContextManager::generate_resume` (context_manager.cpp lines 96-141):
append the resume prompt as a user turn, call the model (the
`skip_context_management` options are absorbed into the `chat` closure),
return "" on failure, and truncate an over-long resume. -/
def generateResume (chat : List ConversationMessage → CompletionResult) (configured : Bool)
    (cfg : ContextManagerConfig) (history : List ConversationMessage)
    (system_prompt : String) : String :=
  if configured = false then ""
  else
    let r := chat (history ++ [ConversationMessage.user buildResumePrompt])
    if r.success = false then ""
    else if cfg.max_resume_chars < r.content.length then
      String.mk (r.content.data.take cfg.max_resume_chars)
        ++ "\n\n[Resume truncated due to size limits]"
    else r.content

/-- `ContextManager::save_resume_to_memory` (context_manager.cpp lines
143-196).  The memory tool is an external collaborator: `memAvail` models
`memory_tool_ && memory_tool_->is_initialized()`, `fileOk` / `dbOk` the
success of its `file_save` / `memory_save` executions on the composed
content.  Returns whether either persistence step succeeded. -/
def saveResumeToMemory (memAvail fileOk dbOk : Bool) (resume session_key timeStr : String) :
    Bool :=
  if memAvail = false then false
  else
    let _content := "# Context Resume\n\n**Generated:** " ++ timeStr ++ "\n"
      ++ (if session_key = "" then "" else "**Session:** " ++ session_key ++ "\n")
      ++ "\n---\n\n" ++ resume
    fileOk || dbOk

/-- `ContextManager::build_resumed_history` (context_manager.cpp lines
224-258). -/
def buildResumedHistory (resume last_user_message system_prompt : String) :
    List ConversationMessage :=
  (if system_prompt = "" then [] else [ConversationMessage.systemMsg system_prompt])
    ++ [ConversationMessage.user
        ("[CONTEXT RESUME - Previous conversation was cleared to free up context space. Below is a summary of everything that happened before this point.]\n\n"
          ++ resume
          ++ "\n\n[END CONTEXT RESUME - Continue from where you left off. You have a fresh context window now.]"),
      ConversationMessage.assistant
        "Understood. I've reviewed the context resume and I'm ready to continue where we left off."]
    ++ (if last_user_message = "" then [] else [ConversationMessage.user last_user_message])

/-- The step-3 scan of `ContextManager::perform_resume_cycle`
(context_manager.cpp lines 291-301): the most recent user turn whose content
does not contain `[TOOL_RESULT`, empty if none. -/
def findLastRealUser (history : List ConversationMessage) : String :=
  match history.reverse.find? (fun m =>
      decide (m.role = MessageRole.user)
        && !(hasSub m.content.data "[TOOL_RESULT")) with
  | none => ""
  | some m => m.content

/-- `ContextManager::perform_resume_cycle` (context_manager.cpp lines
260-316).  Returns the success flag and the resulting history.  Note: the
return value of `save_resume_to_memory` is discarded by the source (line
286) — a persistence failure does not stop the cycle. -/
def performResumeCycle (chat : List ConversationMessage → CompletionResult) (configured : Bool)
    (memAvail fileOk dbOk : Bool) (cfg : ContextManagerConfig)
    (history : List ConversationMessage) (system_prompt session_key timeStr : String) :
    Bool × List ConversationMessage :=
  let resume := generateResume chat configured cfg history system_prompt
  if resume = "" then (false, history)
  else
    let _saved := if cfg.auto_save_memory then
        saveResumeToMemory memAvail fileOk dbOk resume session_key timeStr
      else false
    let last_user_message := findLastRealUser history
    (true, buildResumedHistory resume last_user_message system_prompt)

/-! ### Sandbox path checks (src/core/sandbox.cpp) -/

/-- The Sandbox state relevant to path checks: `active_`, `base_dir_`,
`extra_allowed_paths_` (sandbox.hpp / sandbox.cpp). -/
structure SandboxSt where
  active : Bool
  base_dir : String
  extra_allowed_paths : List String
deriving DecidableEq

/-- One directory test of `Sandbox::is_path_allowed` (sandbox.cpp lines
241-243 and 249-251): `check_path` has `allowed` as a prefix and either ends
there or continues with a `/`. -/
def underAllowed (allowed check_path : String) : Bool :=
  startsWithL allowed.data check_path.data
    && (decide (check_path.length = allowed.length)
        || decide (check_path.data.getD allowed.length ' ' = '/'))

/-- `Sandbox::is_path_allowed` (sandbox.cpp lines 233-256).  `resolve` is the
external `realpath`: `none` models a failed resolution, in which case the raw
path is checked. -/
def SandboxSt.isPathAllowed (resolve : String → Option String) (sb : SandboxSt)
    (path : String) : Bool :=
  if sb.active = false then true
  else
    let check_path := (resolve path).getD path
    if underAllowed sb.base_dir check_path then true
    else sb.extra_allowed_paths.any (fun a => underAllowed a check_path)

/-- `Sandbox::allow_path` (sandbox.cpp lines 204-208): before activation the
path is recorded; after activation the call is ignored. -/
def SandboxSt.allowPath (sb : SandboxSt) (p : String) : SandboxSt :=
  if sb.active = false then
    { sb with extra_allowed_paths := sb.extra_allowed_paths ++ [p] }
  else sb

/-- The specification-side reading of "lies under directory `d` after path
resolution": the resolved path is `d` itself or `d` followed by a
`/`-separated remainder. -/
def liesUnder (d cp : String) : Prop :=
  ∃ rest, cp.data = d.data ++ rest ∧ (rest = [] ∨ ∃ r2, rest = '/' :: r2)

/-! ### Task store listing (src/memory/store.cpp) -/

/-- `struct MemoryTask` (store.hpp), the columns read by `TaskStore::list`. -/
structure MemoryTask where
  id : String
  content : String
  context : String
  channel : String
  user_id : String
  created_at : Int
  due_at : Int
  completed : Bool
  completed_at : Int
deriving DecidableEq

/-- The comparator of the SQL `ORDER BY due_at ASC, created_at ASC`
(store.cpp line 1117): lexicographic on `(due_at, created_at)`, ascending in
both components. -/
def taskLe (a b : MemoryTask) : Bool :=
  decide (a.due_at < b.due_at)
    || (decide (a.due_at = b.due_at) && decide (a.created_at ≤ b.created_at))

def insertLe {α : Type} (le : α → α → Bool) (x : α) : List α → List α
  | [] => [x]
  | y :: ys => if le x y then x :: y :: ys else y :: insertLe le x ys

def sortLe {α : Type} (le : α → α → Bool) : List α → List α
  | [] => []
  | x :: xs => insertLe le x (sortLe le xs)

/-- `TaskStore::list` (store.cpp lines 1107-1142) over a table modelled as a
list of rows: filter out completed tasks unless `include_completed`, then
return the rows ordered by `due_at ASC, created_at ASC`. -/
def TaskStore.list (db : List MemoryTask) (include_completed : Bool) : List MemoryTask :=
  sortLe taskLe (if include_completed then db else db.filter (fun t => t.completed = false))

/-- The ordering claimed by the spec: `CASE WHEN due_at>0 THEN due_at ELSE
infinity END ASC, created_at DESC` — no-due-date tasks (due_at = 0) last, and
ties broken by created_at descending. -/
def specTaskLe (a b : MemoryTask) : Bool :=
  let ka : Option Int := if 0 < a.due_at then some a.due_at else none
  let kb : Option Int := if 0 < b.due_at then some b.due_at else none
  match ka, kb with
  | some x, some y =>
    decide (x < y) || (decide (x = y) && decide (b.created_at ≤ a.created_at))
  | some _, none => true
  | none, some _ => false
  | none, none => decide (b.created_at ≤ a.created_at)

/-! ### Memory full-text search sanitation

The sanitizer lives in `MemoryManager::search` (manager.cpp), which is not
present under src/ — only its declaration (memory/manager.hpp lines 53-56)
and its callers (memory_tool.cpp) are.  It is therefore modelled from the
spec below. -/

/-- `struct MemoryEntry` (memory/store.hpp), the columns relevant to search. -/
structure MemoryEntry where
  id : String
  content : String
  category : String
  tags : String
  channel : String
  user_id : String
  importance : Int
  created_at : Int
  updated_at : Int
deriving DecidableEq

/-- The characters stripped from FTS query tokens: `"'*()`. -/
def ftsBannedChars : List Char := ['"', '\x27', '*', '(', ')']

/-- Split a character list into maximal whitespace-free tokens. -/
def splitTokens : List Char → List (List Char)
  | [] => []
  | c :: rest =>
    if isWsChar c then splitTokens rest
    else
      match splitTokens rest with
      | [] => [[c]]
      | t :: ts =>
        if rest ≠ [] ∧ isWsChar (rest.headI) then [c] :: t :: ts
        else (c :: t) :: ts

/-- Modelled from the spec: the surviving tokens of a memory FTS query — the
whitespace-separated tokens of the query with the characters `"'*()`
stripped, empty tokens dropped (spec section 4.5: "Queries are sanitized by
stripping `"'*()` from each whitespace-separated token"). -/
def ftsTokens (q : String) : List (List Char) :=
  ((splitTokens q.data).map
    (fun t => t.filter (fun c => !(ftsBannedChars.contains c)))).filter (fun t => t ≠ [])

/-- Modelled from the spec: the sanitized FTS query string — each surviving
token double-quoted, joined with ` OR ` (spec section 4.5: "joining with `OR`
in quoted form to defeat FTS syntax injection"). -/
def sanitizeFtsQuery (q : String) : String :=
  String.mk (List.intercalate " OR ".data
    ((ftsTokens q).map (fun t => '"' :: (t ++ ['"']))))

/-- Case-insensitive containment of a token in an entry field. -/
def fieldHasToken (field : String) (t : List Char) : Bool :=
  (findSub (t.map Char.toLower) (lowerData field)).isSome

/-- Modelled from the spec: the memory search over a table of entries.  A
query whose sanitized form is empty returns no rows rather than an error;
otherwise the rows matching at least one sanitized token (case-insensitively
in content, category or tags, per the spec's testable property "all returned
hits contain at least one token from the query in content, category, or
tags") are returned, most important first, up to `limit`. -/
def memorySearch (db : List MemoryEntry) (q : String) (limit : Nat) : List MemoryEntry :=
  if ftsTokens q = [] then []
  else
    ((sortLe (fun a b => decide (b.importance ≤ a.importance)) db).filter
      (fun e => (ftsTokens q).any (fun t =>
        fieldHasToken e.content t || fieldHasToken e.category t
          || fieldHasToken e.tags t))).take limit

/-! ### Theorems -/

theorem alookup_setEntry {β : Type} (k : String) (v : β) (m : List (String × β)) :
    alookup k (setEntry k v m) = some v := by
  simp [setEntry, alookup]

theorem alookup_filter_ne {β : Type} (k k2 : String) (m : List (String × β))
    (h : k2 ≠ k) : alookup k2 (m.filter (fun p => p.1 ≠ k)) = alookup k2 m := by
  induction m with
  | nil => rfl
  | cons p rest ih =>
    obtain ⟨a, b⟩ := p
    have hk2 : ¬ k = k2 := fun hh => h hh.symm
    by_cases hp : a = k
    · have hne : ¬ a = k2 := fun hh => h (hh ▸ hp)
      simp only [List.filter_cons, hp, decide_not, ite_false, if_neg hk2]
      simpa [alookup, hk2] using ih
    · by_cases hpk : a = k2
      · simp [List.filter_cons, hp, alookup, hpk, h]
      · simp only [List.filter_cons, hp, decide_not]
        simp only [alookup, hpk, if_neg hpk]
        simpa using ih

theorem alookup_setEntry_ne {β : Type} (k k2 : String) (v : β) (m : List (String × β))
    (h : k2 ≠ k) : alookup k2 (setEntry k v m) = alookup k2 m := by
  have hne : ¬ k = k2 := fun hh => h hh.symm
  simp only [setEntry, alookup, if_neg hne]
  exact alookup_filter_ne k k2 m h

theorem startsWithL_append (p r : List Char) : startsWithL p (p ++ r) = true := by
  induction p with
  | nil => rfl
  | cons c cs ih => simp [startsWithL, ih]

/-- Taking `min n l.length` elements is taking `n` elements (take clamps). -/
theorem take_min_length {α : Type} (l : List α) (n : Nat) :
    l.take (min n l.length) = l.take n := by
  rcases Nat.le_total n l.length with h | h
  · rw [Nat.min_eq_left h]
  · rw [Nat.min_eq_right h, List.take_length, List.take_of_length_le h]

theorem take_append_length {α : Type} (p t : List α) :
    (p ++ t).take p.length = p := by
  induction p with
  | nil => rfl
  | cons c cs ih => simp [List.take, ih]

/-! ### Helper lemmas for the chunker theorems -/

theorem ceil_div_bounds (n cs : Nat) (h : 0 < cs) :
    n ≤ cs * ((n + cs - 1) / cs) ∧ cs * ((n + cs - 1) / cs) < n + cs := by
  have hdm := Nat.div_add_mod (n + cs - 1) cs
  have hmlt : (n + cs - 1) % cs < cs := Nat.mod_lt _ h
  omega

theorem startsWithL_ne_head (p c : Char) (ps r : List Char) (h : ¬ p = c) :
    startsWithL (p :: ps) (c :: r) = false := by
  simp [startsWithL, h]

theorem exists_affix_of_eq (A B C : String) (tgt : List Char) (h : B.data = tgt) :
    ∃ pre post, (A ++ B ++ C).data = pre ++ tgt ++ post :=
  ⟨A.data, C.data, by rw [← h]; simp [String.data_append, List.append_assoc]⟩

/-- C4: for every content stored in the Content Chunker, `total_chunks` is the
ceiling of `|full_content| / chunk_size` (characterized by the two bounds
`|c| ≤ cs·total` and `cs·total < |c| + cs`), and for every index
`i < total_chunks` the string returned by `get_chunk` contains the substring
`full_content[i·cs .. min((i+1)·cs, |c|))` of the stored content. -/
theorem chunker_store_total_and_slices :
    ∀ (ck : ContentChunker) (content source : String) (csz : Nat),
    ∃ cc : ChunkedContent,
      alookup (ck.store content source csz).1 (ck.store content source csz).2.storage = some cc
      ∧ cc.full_content = content
      ∧ 0 < cc.chunk_size
      ∧ content.length ≤ cc.chunk_size * cc.total_chunks
      ∧ cc.chunk_size * cc.total_chunks < content.length + cc.chunk_size
      ∧ ∀ (stripHtml : String → String) (i : Nat), i < cc.total_chunks →
          ∃ pre post,
            (ContentChunker.get_chunk stripHtml (ck.store content source csz).2
                (ck.store content source csz).1 i false).data
              = pre ++ ((content.data.drop (i * cc.chunk_size)).take cc.chunk_size) ++ post := by
  intro ck content source csz
  have hcspos : 0 < (if csz = 0 then 8000 else csz) := by
    by_cases h : csz = 0 <;> simp [h] <;> omega
  refine ⟨⟨"chunk_" ++ toString ck.next_id, content, source, if csz = 0 then 8000 else csz,
      (content.length + (if csz = 0 then 8000 else csz) - 1) / (if csz = 0 then 8000 else csz)⟩,
    ?_, rfl, hcspos, (ceil_div_bounds content.length _ hcspos).1,
    (ceil_div_bounds content.length _ hcspos).2, ?_⟩
  · simp only [ContentChunker.store]
    exact alookup_setEntry _ _ _
  · intro stripHtml i hi
    have hlook : alookup (ck.store content source csz).1 (ck.store content source csz).2.storage
        = some ⟨"chunk_" ++ toString ck.next_id, content, source, if csz = 0 then 8000 else csz,
            (content.length + (if csz = 0 then 8000 else csz) - 1) / (if csz = 0 then 8000 else csz)⟩ := by
      simp only [ContentChunker.store]
      exact alookup_setEntry _ _ _
    have hi2 : i < (content.length + (if csz = 0 then 8000 else csz) - 1)
        / (if csz = 0 then 8000 else csz) := hi
    have hslice : (content.data.drop (i * (if csz = 0 then 8000 else csz))).take
          (min (if csz = 0 then 8000 else csz)
            (content.length - i * (if csz = 0 then 8000 else csz)))
        = (content.data.drop (i * (if csz = 0 then 8000 else csz))).take
            (if csz = 0 then 8000 else csz) := by
      have hlen : (content.data.drop (i * (if csz = 0 then 8000 else csz))).length
          = content.length - i * (if csz = 0 then 8000 else csz) := by
        rw [List.length_drop]
        rfl
      rw [← hlen, take_min_length]
    simp only [ContentChunker.get_chunk, hlook]
    rw [if_neg (by omega)]
    simp only [if_neg (show ¬ (false = true) from by simp)]
    exact exists_affix_of_eq _ _ _ _ hslice

/-- C10: `get_chunk` is total at its interface: an unknown id yields the
"not found" error string, an index at or beyond `total_chunks` yields the
"out of range" error string (both beginning with "Error:"), and a stored id
with an in-range index returns normally (the framed chunk, which begins with
"[Chunk " and not with "Error:"). -/
theorem chunker_get_chunk_total :
    ∀ (stripHtml : String → String) (ck : ContentChunker) (id : String) (i : Nat) (b : Bool),
      (alookup id ck.storage = none →
        ContentChunker.get_chunk stripHtml ck id i b = "Error: Content ID '" ++ id ++ "' not found.")
      ∧ (∀ cc, alookup id ck.storage = some cc → cc.total_chunks ≤ i →
          ContentChunker.get_chunk stripHtml ck id i b =
            "Error: Chunk index " ++ toString i ++ " out of range. Total chunks: "
              ++ toString cc.total_chunks)
      ∧ (∀ cc, alookup id ck.storage = some cc → i < cc.total_chunks →
          startsWithL "Error:".data (ContentChunker.get_chunk stripHtml ck id i b).data = false
          ∧ startsWithL "[Chunk ".data (ContentChunker.get_chunk stripHtml ck id i b).data = true) := by
  intro stripHtml ck id i b
  refine ⟨?_, ?_, ?_⟩
  · intro hnone
    simp only [ContentChunker.get_chunk, hnone]
  · intro cc hsome hle
    simp only [ContentChunker.get_chunk, hsome]
    rw [if_pos hle]
  · intro cc hsome hlt
    simp only [ContentChunker.get_chunk, hsome]
    rw [if_neg (by omega)]
    constructor
    · have hdata : "[Chunk ".data = '[' :: "Chunk ".data := rfl
      simp only [String.data_append, hdata, List.cons_append, List.append_assoc]
      exact startsWithL_ne_head 'E' '[' _ _ (by decide)
    · have hdata : ("[Chunk " ++ toString (i + 1) ++ "/" ++ toString cc.total_chunks
          ++ " from " ++ cc.source ++ (if b then " (HTML cleaned)" else "") ++ "]\n").data
          = "[Chunk ".data ++ (toString (i + 1) ++ "/" ++ toString cc.total_chunks
              ++ " from " ++ cc.source ++ (if b then " (HTML cleaned)" else "") ++ "]\n").data := by
        simp [String.data_append, List.append_assoc]
      simp only [String.data_append, List.append_assoc]
      have : "[Chunk ".data ≠ [] := by decide
      rw [show "[Chunk ".data ++ ((toString (i + 1)).data ++ _) = "[Chunk ".data ++ _ from rfl]
      exact startsWithL_append _ _

/-- Witness for C4: instantiation at a concrete store of 8 characters with
chunk size 3 and chunk index 1. -/
theorem chunker_store_total_and_slices_witness :
    ∃ pre post,
      (ContentChunker.get_chunk (fun s => s)
          ((ContentChunker.store ⟨[], 1⟩ "abcdefgh" "src" 3).2)
          ((ContentChunker.store ⟨[], 1⟩ "abcdefgh" "src" 3).1) 1 false).data
        = pre ++ (("abcdefgh".data.drop (1 * 3)).take 3) ++ post := by
  obtain ⟨cc, h1, hfc, hpos, hle, hlt, hinf⟩ :=
    chunker_store_total_and_slices ⟨[], 1⟩ "abcdefgh" "src" 3
  have h2 : alookup (ContentChunker.store ⟨[], 1⟩ "abcdefgh" "src" 3).1
      (ContentChunker.store ⟨[], 1⟩ "abcdefgh" "src" 3).2.storage
      = some ⟨"chunk_1", "abcdefgh", "src", 3, 3⟩ := by decide
  rw [h2] at h1
  have hcc : cc = ⟨"chunk_1", "abcdefgh", "src", 3, 3⟩ := (Option.some.inj h1).symm
  have h3 := hinf (fun s => s) 1 (by rw [hcc]; decide)
  rw [hcc] at h3
  exact h3

/-- Witness for C10: the three cases evaluated at concrete chunker states. -/
theorem chunker_get_chunk_total_witness :
    (ContentChunker.get_chunk (fun s => s) ⟨[], 1⟩ "nope" 0 false
      = "Error: Content ID '" ++ "nope" ++ "' not found.")
    ∧ (ContentChunker.get_chunk (fun s => s)
          ⟨[("chunk_1", ⟨"chunk_1", "ab", "src", 8000, 1⟩)], 2⟩ "chunk_1" 5 false
        = "Error: Chunk index " ++ toString 5 ++ " out of range. Total chunks: " ++ toString 1)
    ∧ (startsWithL "Error:".data
          (ContentChunker.get_chunk (fun s => s)
            ⟨[("chunk_1", ⟨"chunk_1", "ab", "src", 8000, 1⟩)], 2⟩ "chunk_1" 0 false).data = false
        ∧ startsWithL "[Chunk ".data
          (ContentChunker.get_chunk (fun s => s)
            ⟨[("chunk_1", ⟨"chunk_1", "ab", "src", 8000, 1⟩)], 2⟩ "chunk_1" 0 false).data = true) := by
  refine ⟨?_, ?_, ?_⟩
  · exact (chunker_get_chunk_total (fun s => s) ⟨[], 1⟩ "nope" 0 false).1 (by decide)
  · exact (chunker_get_chunk_total (fun s => s) _ "chunk_1" 5 false).2.1
      ⟨"chunk_1", "ab", "src", 8000, 1⟩ (by decide) (by decide)
  · exact (chunker_get_chunk_total (fun s => s) _ "chunk_1" 0 false).2.2
      ⟨"chunk_1", "ab", "src", 8000, 1⟩ (by decide) (by decide)

/-- Counterexample for C5: with a configured chunk size of 5000
(`effective_chunk_size = 5000`), the auto-chunk store performed by
`format_tool_result` still stores with chunk size 8000 — `ContentChunker::store`
never consults the configured default. -/
theorem chunk_default_counterexample :
    alookup "chunk_1"
        (formatToolResult
          { max_iterations := 30, max_consecutive_errors := 5, echo_tool_calls := false
            verbose_results := false, max_tool_result_size := 10
            auto_chunk_large_results := true, chunk_size := 5000, context_size := 0 }
          ⟨[], 1⟩ "t" (AgentToolResult.ok "abcdefghijklmnopqrst")).2.storage
      = some ⟨"chunk_1", "abcdefghijklmnopqrst", "t", 8000, 1⟩
    ∧ AgentConfig.effective_chunk_size
        { max_iterations := 30, max_consecutive_errors := 5, echo_tool_calls := false
          verbose_results := false, max_tool_result_size := 10
          auto_chunk_large_results := true, chunk_size := 5000, context_size := 0 } = 5000
    ∧ (8000 : Nat) ≠ 5000 := by
  refine ⟨by decide, by decide, by decide⟩

/-- C5 (amended): `ContentChunker::store` with `chunk_size = 0` always stores
with chunk size 8000 — the configured default (`effective_chunk_size`) is never
consulted — and the Agent's auto-chunk store in `format_tool_result`, which
passes no chunk size, therefore uses 8000 and yields a well-defined
`total_chunks` (the ceiling of `|output| / 8000`). -/
theorem chunk_default_amended :
    ∀ (cfg : AgentConfig) (ck : ContentChunker) (content source tool_name : String)
      (r : AgentToolResult),
    (∃ cc, alookup (ck.store content source 0).1 (ck.store content source 0).2.storage = some cc
      ∧ cc.chunk_size = 8000
      ∧ content.length ≤ 8000 * cc.total_chunks
      ∧ 8000 * cc.total_chunks < content.length + 8000)
    ∧ (r.success = true → cfg.auto_chunk_large_results = true →
        cfg.max_tool_result_size < r.output.length →
        ∃ cc, alookup ("chunk_" ++ toString ck.next_id)
            (formatToolResult cfg ck tool_name r).2.storage = some cc
          ∧ cc.full_content = r.output ∧ cc.chunk_size = 8000
          ∧ r.output.length ≤ 8000 * cc.total_chunks
          ∧ 8000 * cc.total_chunks < r.output.length + 8000) := by
  intro cfg ck content source tool_name r
  have h8 : (0:Nat) < 8000 := by norm_num
  constructor
  · refine ⟨⟨"chunk_" ++ toString ck.next_id, content, source, 8000,
        (content.length + 8000 - 1) / 8000⟩, ?_, rfl,
      (ceil_div_bounds content.length 8000 h8).1, (ceil_div_bounds content.length 8000 h8).2⟩
    simp only [ContentChunker.store]
    exact alookup_setEntry _ _ _
  · intro hs ha hlt
    refine ⟨⟨"chunk_" ++ toString ck.next_id, r.output, tool_name, 8000,
        (r.output.length + 8000 - 1) / 8000⟩, ?_, rfl, rfl,
      (ceil_div_bounds r.output.length 8000 h8).1, (ceil_div_bounds r.output.length 8000 h8).2⟩
    have hd : decide (cfg.max_tool_result_size < r.output.length) = true := decide_eq_true hlt
    simp only [formatToolResult, hs, ha, hd, Bool.and_self, if_true, ite_true]
    simp only [ContentChunker.store]
    exact alookup_setEntry _ _ _

/-- Witness for C5 (amended): a 5-character output over a 3-character limit is
auto-chunked with chunk size 8000 and one chunk. -/
theorem chunk_default_amended_witness :
    ∃ cc, alookup ("chunk_" ++ toString (1:Nat))
        (formatToolResult
          { max_iterations := 30, max_consecutive_errors := 5, echo_tool_calls := false
            verbose_results := false, max_tool_result_size := 3
            auto_chunk_large_results := true, chunk_size := 0, context_size := 0 }
          ⟨[], 1⟩ "echo" (AgentToolResult.ok "hello")).2.storage = some cc
      ∧ cc.full_content = "hello" ∧ cc.chunk_size = 8000
      ∧ "hello".length ≤ 8000 * cc.total_chunks
      ∧ 8000 * cc.total_chunks < "hello".length + 8000 := by
  exact (chunk_default_amended _ ⟨[], 1⟩ "x" "y" "echo" (AgentToolResult.ok "hello")).2
    rfl rfl (by decide)

/-- C1: the code evaluated at the failing input.  Seeding seven messages and
running against a model that always fails with "prompt exceeds context
length" returns failure (success = false, paused = false) with only three
messages left in the history: token-limit recovery truncated the history to
three messages and the rollback loop, which only pops entries beyond the
initial length, cannot restore the seven input messages.  This contradicts
the claim (and spec section 7) that every failed run leaves
`|history_after| = |history_before|` with the messages equal. -/
theorem run_rollback_failure_eval :
    (agentRun c1Env "do the thing" c1History AgentConfig.default ⟨[], 1⟩).success = false
    ∧ (agentRun c1Env "do the thing" c1History AgentConfig.default ⟨[], 1⟩).paused = false
    ∧ c1History.length = 7
    ∧ (agentRun c1Env "do the thing" c1History AgentConfig.default ⟨[], 1⟩).history.length = 3 := by
  refine ⟨by decide, by decide, by decide, by decide⟩

/-- Counterexample for C2: a run that completes successfully after token-limit
recovery returns a history of four messages from a seven-message input — the
output history is shorter than the input and its prefix differs, because
truncation strategy 2 rebuilt the history. -/
theorem run_prefix_counterexample :
    (agentRun c2Env "do the thing" c1History AgentConfig.default ⟨[], 1⟩).success = true
    ∧ c1History.length = 7
    ∧ (agentRun c2Env "do the thing" c1History AgentConfig.default ⟨[], 1⟩).history.length = 4 := by
  refine ⟨by decide, by decide, by decide⟩

theorem runLoop_trunc_mono (env : RunEnv) (cfg : AgentConfig) (initial : Nat) :
    ∀ fuel st, st.truncations ≤ (runLoop env cfg initial fuel st).truncations := by
  intro fuel
  induction fuel with
  | zero => intro st; exact Nat.le_refl _
  | succ fuel ih =>
    intro st
    have key : ∀ s2 : LoopSt, st.truncations ≤ s2.truncations →
        st.truncations ≤ (runLoop env cfg initial fuel s2).truncations :=
      fun s2 h => Nat.le_trans h (ih s2)
    simp only [runLoop]
    split
    · split
      · split
        · split
          · exact key _ (Nat.le_succ _)
          · exact Nat.le_refl _
        · exact Nat.le_refl _
      · split
        · exact Nat.le_refl _
        · exact key _ (Nat.le_refl _)
    · split
      · split
        · exact key _ (Nat.le_refl _)
        · exact Nat.le_refl _
      · split
        · exact Nat.le_refl _
        · exact key _ (Nat.le_refl _)

theorem runLoop_prefix (env : RunEnv) (cfg : AgentConfig) (pre : List ConversationMessage) :
    ∀ fuel st, (∃ t, st.history = pre ++ t) →
      (∃ t, (runLoop env cfg pre.length fuel st).history = pre ++ t)
      ∨ st.truncations < (runLoop env cfg pre.length fuel st).truncations := by
  intro fuel
  induction fuel with
  | zero => intro st hpre; exact Or.inl hpre
  | succ fuel ih =>
    intro st hpre
    obtain ⟨t, ht⟩ := hpre
    have key2 : ∀ s2 : LoopSt, st.truncations < s2.truncations →
        st.truncations < (runLoop env cfg pre.length fuel s2).truncations :=
      fun s2 h => Nat.lt_of_lt_of_le h (runLoop_trunc_mono env cfg pre.length fuel s2)
    simp only [runLoop]
    split
    · split
      · split
        · split
          · exact Or.inr (key2 _ (Nat.lt_succ_self _))
          · refine Or.inl ⟨[], ?_⟩
            show st.history.take pre.length = pre ++ []
            rw [ht, take_append_length, List.append_nil]
        · refine Or.inl ⟨[], ?_⟩
          show st.history.take pre.length = pre ++ []
          rw [ht, take_append_length, List.append_nil]
      · split
        · refine Or.inl ⟨[], ?_⟩
          show st.history.take pre.length = pre ++ []
          rw [ht, take_append_length, List.append_nil]
        · exact ih _ ⟨t, ht⟩
    · split
      · split
        · refine ih _ ⟨t ++ [ConversationMessage.assistant
              (env.chat st.history).content, ConversationMessage.user goadPrompt], ?_⟩
          show st.history ++ _ = pre ++ _
          rw [ht, List.append_assoc]
        · refine Or.inl ⟨t ++ [ConversationMessage.assistant (env.chat st.history).content], ?_⟩
          show st.history ++ _ = pre ++ _
          rw [ht, List.append_assoc]
      · split
        · refine Or.inl ⟨t ++ [ConversationMessage.assistant (env.chat st.history).content,
              ConversationMessage.user (processCalls cfg env.exec (st.iterations + 1)
                (env.parse (env.chat st.history).content)
                (ProcOut.init st.recent st.chunker st.tools_used st.tool_calls_made)).resultsText],
            ?_⟩
          show st.history ++ _ = pre ++ _
          rw [ht, List.append_assoc]
        · refine ih _ ⟨t ++ [ConversationMessage.assistant (env.chat st.history).content,
              ConversationMessage.user (processCalls cfg env.exec (st.iterations + 1)
                (env.parse (env.chat st.history).content)
                (ProcOut.init st.recent st.chunker st.tools_used st.tool_calls_made)).resultsText],
            ?_⟩
          show st.history ++ _ = pre ++ _
          rw [ht, List.append_assoc]

/-- C2 (amended): for every Agent run in which token-limit recovery never
truncated the history, the output history extends the input: the first
`|history_before|` messages are identical to the input history (no in-place
modification of pre-existing entries) and `|history_after| ≥ |history_before|`.
Runs that undergo token-limit truncation may shorten or rewrite pre-existing
entries (see the counterexample). -/
theorem run_preserves_history_amended :
    ∀ (env : RunEnv) (user_message : String) (history : List ConversationMessage)
      (cfg : AgentConfig) (ck0 : ContentChunker),
      (agentRun env user_message history cfg ck0).truncations = 0 →
      (agentRun env user_message history cfg ck0).history.take history.length = history
      ∧ history.length ≤ (agentRun env user_message history cfg ck0).history.length := by
  intro env um history cfg ck0 htr
  by_cases hc : env.configured = false
  · simp only [agentRun, hc, if_true, ite_true] at htr ⊢
    exact ⟨List.take_length history, Nat.le_refl _⟩
  · have hpre := runLoop_prefix env cfg history cfg.max_iterations.toNat
      { history := history ++ [ConversationMessage.user um], iterations := 0
        consecutive_errors := 0, token_limit_retries := 0, recent := []
        accumulated := "", tool_calls_made := 0, tools_used := [], chunker := ck0
        truncations := 0, emissions := [], executions := [] }
      ⟨[ConversationMessage.user um], rfl⟩
    simp only [agentRun] at htr ⊢
    rw [if_neg hc] at htr
    rw [if_neg hc]
    rcases hpre with ⟨t, ht⟩ | hlt
    · rw [ht]
      exact ⟨take_append_length history t, by simp⟩
    · exact absurd htr (by omega)

/-- Witness for C2 (amended): a trivial one-reply run appends two messages and
leaves the single seed message intact. -/
theorem run_preserves_history_amended_witness :
    (agentRun
        { chat := fun _ => ⟨true, "hello", ""⟩, parse := fun _ => []
          exec := fun _ => AgentToolResult.ok "x", configured := true }
        "hi" [ConversationMessage.user "m0"] AgentConfig.default ⟨[], 1⟩).history.take 1
      = [ConversationMessage.user "m0"]
    ∧ 1 ≤ (agentRun
        { chat := fun _ => ⟨true, "hello", ""⟩, parse := fun _ => []
          exec := fun _ => AgentToolResult.ok "x", configured := true }
        "hi" [ConversationMessage.user "m0"] AgentConfig.default ⟨[], 1⟩).history.length := by
  have h := run_preserves_history_amended
    { chat := fun _ => ⟨true, "hello", ""⟩, parse := fun _ => []
      exec := fun _ => AgentToolResult.ok "x", configured := true }
    "hi" [ConversationMessage.user "m0"] AgentConfig.default ⟨[], 1⟩ (by decide)
  exact h

/-! ### C6: duplicate-call suppression across iterations -/

theorem string_contains_iff (l : List String) (a : String) : l.contains a = true ↔ a ∈ l := by
  induction l with
  | nil => simp
  | cons b t ih =>
    simp only [List.contains_cons, Bool.or_eq_true, beq_iff_eq, List.mem_cons, ih]

theorem char_contains_iff (l : List Char) (a : Char) : l.contains a = true ↔ a ∈ l := by
  induction l with
  | nil => simp
  | cons b t ih =>
    simp only [List.contains_cons, Bool.or_eq_true, beq_iff_eq, List.mem_cons, ih]

/-- Keys executed so far only grow. -/
theorem processCalls_exec_mono (cfg : AgentConfig) (ex : ParsedToolCall → AgentToolResult)
    (iter : Int) (k : String) :
    ∀ (L : List ParsedToolCall) (st : ProcOut), k ∈ st.executedKeys →
      k ∈ (processCalls cfg ex iter L st).executedKeys := by
  intro L
  induction L with
  | nil => intro st h; exact h
  | cons call rest ih =>
    intro st h
    simp only [processCalls]
    split
    · exact ih _ h
    · split
      · split
        · exact ih _ h
        · exact ih _ (by simp [execStep, List.mem_append]; exact Or.inl h)
      · exact ih _ (by simp [execStep, List.mem_append]; exact Or.inl h)

/-- Keys skipped as same-as-previous-iteration only grow. -/
theorem processCalls_skipPrev_mono (cfg : AgentConfig) (ex : ParsedToolCall → AgentToolResult)
    (iter : Int) (k : String) :
    ∀ (L : List ParsedToolCall) (st : ProcOut), k ∈ st.skippedPrev →
      k ∈ (processCalls cfg ex iter L st).skippedPrev := by
  intro L
  induction L with
  | nil => intro st h; exact h
  | cons call rest ih =>
    intro st h
    simp only [processCalls]
    split
    · exact ih _ h
    · split
      · split
        · exact ih _ (by simp [List.mem_append]; exact Or.inl h)
        · exact ih _ h
      · exact ih _ h

/-- Once a key is in the seen set, its `recent_tool_calls` entry is frozen for
the rest of the iteration: any further occurrence is a same-response
duplicate. -/
theorem processCalls_seen_frozen (cfg : AgentConfig) (ex : ParsedToolCall → AgentToolResult)
    (iter : Int) (k : String) :
    ∀ (L : List ParsedToolCall) (st : ProcOut), k ∈ st.seen →
      alookup k (processCalls cfg ex iter L st).recent = alookup k st.recent := by
  intro L
  induction L with
  | nil => intro st _; rfl
  | cons call rest ih =>
    intro st h
    simp only [processCalls]
    split
    · exact ih _ h
    case _ hseen =>
      have hk : ¬ dedupKey call = k := by
        intro hkk
        exact hseen (by rw [hkk]; exact (string_contains_iff _ _).mpr h)
      split
      · split
        · exact ih _ (by simp [List.mem_append]; exact Or.inl h)
        · rw [ih _ (by simp [execStep, List.mem_append]; exact Or.inl h)]
          simp only [execStep]
          exact alookup_setEntry_ne _ _ _ _ (fun hh => hk hh.symm)
      · rw [ih _ (by simp [execStep, List.mem_append]; exact Or.inl h)]
        simp only [execStep]
        exact alookup_setEntry_ne _ _ _ _ (fun hh => hk hh.symm)

/-- Once a key is in the seen set and not yet executed, it is never executed
later in the same iteration. -/
theorem processCalls_seen_not_exec (cfg : AgentConfig) (ex : ParsedToolCall → AgentToolResult)
    (iter : Int) (k : String) :
    ∀ (L : List ParsedToolCall) (st : ProcOut), k ∈ st.seen → k ∉ st.executedKeys →
      k ∉ (processCalls cfg ex iter L st).executedKeys := by
  intro L
  induction L with
  | nil => intro st _ h2; exact h2
  | cons call rest ih =>
    intro st h h2
    simp only [processCalls]
    split
    · exact ih _ h h2
    case _ hseen =>
      have hk : ¬ dedupKey call = k := by
        intro hkk
        exact hseen (by rw [hkk]; exact (string_contains_iff _ _).mpr h)
      split
      · split
        · exact ih _ (by simp [List.mem_append]; exact Or.inl h) h2
        · refine ih _ (by simp [execStep, List.mem_append]; exact Or.inl h) ?_
          simp [execStep, List.mem_append]
          exact ⟨h2, fun hh => hk hh.symm⟩
      · refine ih _ (by simp [execStep, List.mem_append]; exact Or.inl h) ?_
        simp [execStep, List.mem_append]
        exact ⟨h2, fun hh => hk hh.symm⟩

/-- A key executed during an iteration ends that iteration with its
`recent_tool_calls` entry equal to the iteration number. -/
theorem processCalls_executed_recent (cfg : AgentConfig) (ex : ParsedToolCall → AgentToolResult)
    (iter : Int) (k : String) :
    ∀ (L : List ParsedToolCall) (st : ProcOut), k ∉ st.executedKeys →
      k ∈ (processCalls cfg ex iter L st).executedKeys →
      alookup k (processCalls cfg ex iter L st).recent = some iter := by
  intro L
  induction L with
  | nil => intro st h1 h2; exact absurd h2 h1
  | cons call rest ih =>
    intro st h1 h2
    have hexecState : dedupKey call = k →
        alookup k (processCalls cfg ex iter rest
          (execStep cfg ex iter call (dedupKey call)
            { st with seen := st.seen ++ [dedupKey call] })).recent = some iter := by
      intro hk
      rw [processCalls_seen_frozen cfg ex iter k rest _
        (by simp [execStep, List.mem_append]; exact Or.inr hk.symm)]
      simp only [execStep]
      rw [← hk]
      exact alookup_setEntry _ _ _
    by_cases hseen : st.seen.contains (dedupKey call) = true
    · simp only [processCalls, if_pos hseen] at h2 ⊢
      exact ih _ h1 h2
    · rcases hrec : alookup (dedupKey call) st.recent with _ | p
      · simp only [processCalls, if_neg hseen, hrec] at h2 ⊢
        by_cases hk : dedupKey call = k
        · exact hexecState hk
        · refine ih _ ?_ h2
          simp [execStep, List.mem_append]
          exact ⟨h1, fun hh => hk hh.symm⟩
      · by_cases hp : p = iter - 1
        · simp only [processCalls, if_neg hseen, hrec, if_pos hp] at h2 ⊢
          by_cases hk : dedupKey call = k
          · exact absurd h2 (processCalls_seen_not_exec cfg ex iter k rest _
              (by simp [List.mem_append]; exact Or.inr hk.symm) h1)
          · exact ih _ h1 h2
        · simp only [processCalls, if_neg hseen, hrec, if_neg hp] at h2 ⊢
          by_cases hk : dedupKey call = k
          · exact hexecState hk
          · refine ih _ ?_ h2
            simp [execStep, List.mem_append]
            exact ⟨h1, fun hh => hk hh.symm⟩

/-- An iteration that never emits key `k` leaves its `recent_tool_calls`
entry unchanged. -/
theorem processCalls_not_emitted_recent (cfg : AgentConfig) (ex : ParsedToolCall → AgentToolResult)
    (iter : Int) (k : String) :
    ∀ (L : List ParsedToolCall) (st : ProcOut), k ∉ L.map dedupKey →
      alookup k (processCalls cfg ex iter L st).recent = alookup k st.recent := by
  intro L
  induction L with
  | nil => intro st _; rfl
  | cons call rest ih =>
    intro st h
    have hk : ¬ dedupKey call = k := by
      intro hkk
      refine h ?_
      simp only [List.map_cons, List.mem_cons]
      exact Or.inl hkk.symm
    have hrest : k ∉ rest.map dedupKey := by
      intro hh
      refine h ?_
      simp only [List.map_cons, List.mem_cons]
      exact Or.inr hh
    simp only [processCalls]
    split
    · exact ih _ hrest
    · split
      · split
        · exact ih _ hrest
        · rw [ih _ hrest]
          simp only [execStep]
          exact alookup_setEntry_ne _ _ _ _ (fun hh => hk hh.symm)
      · rw [ih _ hrest]
        simp only [execStep]
        exact alookup_setEntry_ne _ _ _ _ (fun hh => hk hh.symm)

/-- A key that is emitted, is not yet seen, and whose `recent_tool_calls`
entry is not the immediately previous iteration, is executed. -/
theorem processCalls_exec_of_recent (cfg : AgentConfig) (ex : ParsedToolCall → AgentToolResult)
    (j : Int) (k : String) (i : Int) :
    ∀ (L : List ParsedToolCall) (st : ProcOut),
      alookup k st.recent = some i → ¬ i = j - 1 → k ∉ st.seen →
      k ∈ L.map dedupKey →
      k ∈ (processCalls cfg ex j L st).executedKeys := by
  intro L
  induction L with
  | nil => intro st _ _ _ hmem; exact absurd hmem (by simp)
  | cons call rest ih =>
    intro st hrec hne hseen hmem
    by_cases hk : dedupKey call = k
    · have hsc : ¬ st.seen.contains (dedupKey call) = true := by
        intro hcon
        exact hseen (by rw [← hk]; exact (string_contains_iff _ _).mp hcon)
      have hrec2 : alookup (dedupKey call) st.recent = some i := by rw [hk]; exact hrec
      simp only [processCalls, if_neg hsc, hrec2, if_neg (fun hh => hne hh)]
      refine processCalls_exec_mono cfg ex j k rest _ ?_
      simp [execStep, List.mem_append]
      exact Or.inr hk.symm
    · have hmem2 : k ∈ rest.map dedupKey := by
        rcases (List.mem_map).mp hmem with ⟨c, hc, hck⟩
        rcases List.mem_cons.mp hc with hh | hh
        · exact absurd (hh ▸ hck) hk
        · exact (List.mem_map).mpr ⟨c, hh, hck⟩
      have hseen3 : k ∉ st.seen ++ [dedupKey call] := by
        simp [List.mem_append]
        exact ⟨hseen, fun hh => hk hh.symm⟩
      by_cases hsc : st.seen.contains (dedupKey call) = true
      · simp only [processCalls, if_pos hsc]
        exact ih _ hrec hne hseen hmem2
      · rcases hr2 : alookup (dedupKey call) st.recent with _ | p
        · simp only [processCalls, if_neg hsc, hr2]
          refine ih _ ?_ hne ?_ hmem2
          · simp only [execStep]
            rw [alookup_setEntry_ne _ _ _ _ (fun hh => hk hh.symm)]
            exact hrec
          · simpa [execStep] using hseen3
        · by_cases hp : p = j - 1
          · simp only [processCalls, if_neg hsc, hr2, if_pos hp]
            exact ih _ hrec hne hseen3 hmem2
          · simp only [processCalls, if_neg hsc, hr2, if_neg hp]
            refine ih _ ?_ hne ?_ hmem2
            · simp only [execStep]
              rw [alookup_setEntry_ne _ _ _ _ (fun hh => hk hh.symm)]
              exact hrec
            · simpa [execStep] using hseen3

/-- A key that is emitted, is not yet seen, and whose `recent_tool_calls`
entry IS the immediately previous iteration, is replaced by the synthetic
"previous iteration" result and never executed in this iteration. -/
theorem processCalls_skip_of_prev (cfg : AgentConfig) (ex : ParsedToolCall → AgentToolResult)
    (j : Int) (k : String) :
    ∀ (L : List ParsedToolCall) (st : ProcOut),
      alookup k st.recent = some (j - 1) → k ∉ st.seen → k ∉ st.executedKeys →
      k ∈ L.map dedupKey →
      k ∈ (processCalls cfg ex j L st).skippedPrev
      ∧ k ∉ (processCalls cfg ex j L st).executedKeys := by
  intro L
  induction L with
  | nil => intro st _ _ _ hmem; exact absurd hmem (by simp)
  | cons call rest ih =>
    intro st hrec hseen hexec hmem
    by_cases hk : dedupKey call = k
    · have hsc : ¬ st.seen.contains (dedupKey call) = true := by
        intro hcon
        exact hseen (by rw [← hk]; exact (string_contains_iff _ _).mp hcon)
      have hrec2 : alookup (dedupKey call) st.recent = some (j - 1) := by rw [hk]; exact hrec
      simp only [processCalls, if_neg hsc, hrec2, if_pos rfl]
      constructor
      · refine processCalls_skipPrev_mono cfg ex j k rest _ ?_
        simp [List.mem_append]
        exact Or.inr hk.symm
      · refine processCalls_seen_not_exec cfg ex j k rest _ ?_ hexec
        simp [List.mem_append]
        exact Or.inr hk.symm
    · have hmem2 : k ∈ rest.map dedupKey := by
        rcases (List.mem_map).mp hmem with ⟨c, hc, hck⟩
        rcases List.mem_cons.mp hc with hh | hh
        · exact absurd (hh ▸ hck) hk
        · exact (List.mem_map).mpr ⟨c, hh, hck⟩
      have hseen3 : k ∉ st.seen ++ [dedupKey call] := by
        simp [List.mem_append]
        exact ⟨hseen, fun hh => hk hh.symm⟩
      by_cases hsc : st.seen.contains (dedupKey call) = true
      · simp only [processCalls, if_pos hsc]
        exact ih _ hrec hseen hexec hmem2
      · rcases hr2 : alookup (dedupKey call) st.recent with _ | p
        · simp only [processCalls, if_neg hsc, hr2]
          refine ih _ ?_ ?_ ?_ hmem2
          · simp only [execStep]
            rw [alookup_setEntry_ne _ _ _ _ (fun hh => hk hh.symm)]
            exact hrec
          · simpa [execStep] using hseen3
          · simp [execStep, List.mem_append]
            exact ⟨hexec, fun hh => hk hh.symm⟩
        · by_cases hp : p = j - 1
          · simp only [processCalls, if_neg hsc, hr2, if_pos hp]
            exact ih _ hrec hseen3 hexec hmem2
          · simp only [processCalls, if_neg hsc, hr2, if_neg hp]
            refine ih _ ?_ ?_ ?_ hmem2
            · simp only [execStep]
              rw [alookup_setEntry_ne _ _ _ _ (fun hh => hk hh.symm)]
              exact hrec
            · simpa [execStep] using hseen3
            · simp [execStep, List.mem_append]
              exact ⟨hexec, fun hh => hk hh.symm⟩

theorem foldIterations_not_emitted (cfg : AgentConfig) (ex : ParsedToolCall → AgentToolResult)
    (ck : ContentChunker) (tools : List String) (made : Int) (k : String) :
    ∀ (Ls : List (List ParsedToolCall)) (it : Int) (recent : List (String × Int)),
      (∀ L ∈ Ls, k ∉ L.map dedupKey) →
      alookup k (foldIterations cfg ex ck tools made it Ls recent) = alookup k recent := by
  intro Ls
  induction Ls with
  | nil => intro it recent _; rfl
  | cons L Ls ih =>
    intro it recent h
    simp only [foldIterations]
    rw [ih _ _ (fun L2 hL2 => h L2 (List.mem_cons.mpr (Or.inr hL2)))]
    exact processCalls_not_emitted_recent cfg ex it k L _ (h L (List.mem_cons.mpr (Or.inl rfl)))

/-- C6: across iterations of an Agent run, a tool call whose dedup key (tool
name plus canonical arguments JSON) was executed in iteration `i` and is
emitted again in iteration `i + 1` is not executed there: it is replaced by
the synthetic "already made in the previous iteration" result.  The same key
re-emitted after a gap of at least 2 iterations (none of which emit it) is
executed again. -/
theorem agent_dedup_cross_iterations :
    ∀ (cfg cfg2 : AgentConfig) (ex ex2 : ParsedToolCall → AgentToolResult)
      (recent : List (String × Int)) (ck ck2 : ContentChunker)
      (tools tools2 : List String) (made made2 : Int)
      (i : Int) (L1 L2 : List ParsedToolCall) (k : String),
    (k ∈ (processCalls cfg ex i L1 (ProcOut.init recent ck tools made)).executedKeys →
     k ∈ L2.map dedupKey →
     k ∈ (processCalls cfg2 ex2 (i + 1) L2
          (ProcOut.init (processCalls cfg ex i L1 (ProcOut.init recent ck tools made)).recent
            ck2 tools2 made2)).skippedPrev
     ∧ k ∉ (processCalls cfg2 ex2 (i + 1) L2
          (ProcOut.init (processCalls cfg ex i L1 (ProcOut.init recent ck tools made)).recent
            ck2 tools2 made2)).executedKeys)
    ∧ (∀ (mids : List (List ParsedToolCall)) (ck3 : ContentChunker)
         (tools3 : List String) (made3 : Int),
        k ∈ (processCalls cfg ex i L1 (ProcOut.init recent ck tools made)).executedKeys →
        1 ≤ mids.length →
        (∀ L ∈ mids, k ∉ L.map dedupKey) →
        k ∈ L2.map dedupKey →
        k ∈ (processCalls cfg2 ex2 (i + 1 + (mids.length : Int)) L2
            (ProcOut.init (foldIterations cfg ex ck2 tools2 made2 (i + 1) mids
              (processCalls cfg ex i L1 (ProcOut.init recent ck tools made)).recent)
              ck3 tools3 made3)).executedKeys) := by
  intro cfg cfg2 ex ex2 recent ck ck2 tools tools2 made made2 i L1 L2 k
  constructor
  · intro hex hmem
    have hrec : alookup k (processCalls cfg ex i L1 (ProcOut.init recent ck tools made)).recent
        = some i :=
      processCalls_executed_recent cfg ex i k L1 _ (by simp [ProcOut.init]) hex
    refine processCalls_skip_of_prev cfg2 ex2 (i + 1) k L2 _ ?_ ?_ ?_ hmem
    · have hii : i + 1 - 1 = i := by ring
      rw [hii]
      exact hrec
    · simp [ProcOut.init]
    · simp [ProcOut.init]
  · intro mids ck3 tools3 made3 hex hlen hnone hmem
    have hrec : alookup k (processCalls cfg ex i L1 (ProcOut.init recent ck tools made)).recent
        = some i :=
      processCalls_executed_recent cfg ex i k L1 _ (by simp [ProcOut.init]) hex
    have hfold : alookup k (foldIterations cfg ex ck2 tools2 made2 (i + 1) mids
        (processCalls cfg ex i L1 (ProcOut.init recent ck tools made)).recent) = some i := by
      rw [foldIterations_not_emitted cfg ex ck2 tools2 made2 k mids (i + 1) _ hnone]
      exact hrec
    refine processCalls_exec_of_recent cfg2 ex2 (i + 1 + (mids.length : Int)) k i L2 _
      hfold ?_ (by simp [ProcOut.init]) hmem
    have hc : (1 : Int) ≤ (mids.length : Int) := by exact_mod_cast hlen
    omega

/-- Witness for C6: the call `echo` with canonical arguments `1` executed in
iteration 1 is suppressed in iteration 2, and re-executed in iteration 3
after an intermediate iteration that does not emit it. -/
theorem agent_dedup_cross_iterations_witness :
    ("echo:1" ∈ (processCalls AgentConfig.default (fun _ => AgentToolResult.ok "x") (1 + 1)
        [⟨"echo", "1", "", 0, 10, true⟩]
        (ProcOut.init (processCalls AgentConfig.default (fun _ => AgentToolResult.ok "x") 1
            [⟨"echo", "1", "", 0, 10, true⟩] (ProcOut.init [] ⟨[], 1⟩ [] 0)).recent
          ⟨[], 1⟩ [] 0)).skippedPrev
     ∧ "echo:1" ∉ (processCalls AgentConfig.default (fun _ => AgentToolResult.ok "x") (1 + 1)
        [⟨"echo", "1", "", 0, 10, true⟩]
        (ProcOut.init (processCalls AgentConfig.default (fun _ => AgentToolResult.ok "x") 1
            [⟨"echo", "1", "", 0, 10, true⟩] (ProcOut.init [] ⟨[], 1⟩ [] 0)).recent
          ⟨[], 1⟩ [] 0)).executedKeys)
    ∧ "echo:1" ∈ (processCalls AgentConfig.default (fun _ => AgentToolResult.ok "x")
        (1 + 1 + (([[]] : List (List ParsedToolCall)).length : Int))
        [⟨"echo", "1", "", 0, 10, true⟩]
        (ProcOut.init (foldIterations AgentConfig.default (fun _ => AgentToolResult.ok "x")
            ⟨[], 1⟩ [] 0 (1 + 1) [[]]
            (processCalls AgentConfig.default (fun _ => AgentToolResult.ok "x") 1
              [⟨"echo", "1", "", 0, 10, true⟩] (ProcOut.init [] ⟨[], 1⟩ [] 0)).recent)
          ⟨[], 1⟩ [] 0)).executedKeys := by
  have h := agent_dedup_cross_iterations AgentConfig.default AgentConfig.default
    (fun _ => AgentToolResult.ok "x") (fun _ => AgentToolResult.ok "x")
    [] ⟨[], 1⟩ ⟨[], 1⟩ [] [] 0 0 1
    [⟨"echo", "1", "", 0, 10, true⟩] [⟨"echo", "1", "", 0, 10, true⟩] "echo:1"
  exact ⟨h.1 (by decide) (by decide),
    h.2 [[]] ⟨[], 1⟩ [] 0 (by decide) (by decide) (by decide) (by decide)⟩

/-- Counterexample for C3: a cycle whose memory-persistence step fails (the
memory tool is unavailable, so `save_resume_to_memory` returns false) still
replaces the history — the cycle is not a no-op on persistence failure. -/
theorem resume_cycle_counterexample :
    saveResumeToMemory false false false "R" "" "t" = false
    ∧ (performResumeCycle (fun _ => ⟨true, "R", ""⟩) true false false false
        ContextManagerConfig.default [ConversationMessage.user "hi"] "S" "" "t").1 = true
    ∧ (performResumeCycle (fun _ => ⟨true, "R", ""⟩) true false false false
        ContextManagerConfig.default [ConversationMessage.user "hi"] "S" "" "t").2
      ≠ [ConversationMessage.user "hi"] := by
  refine ⟨by decide, by decide, by decide⟩

/-- C3 (amended): the resume cycle is a no-op on the history (returning
false) exactly when resume generation fails (model unavailable, model error,
or empty resume); a failure to persist the resume to the Memory Store is only
logged and does not stop the history replacement, and rebuilding the history
itself cannot fail. -/
theorem resume_cycle_amended :
    ∀ (chat : List ConversationMessage → CompletionResult) (configured : Bool)
      (memAvail fileOk dbOk : Bool) (cfg : ContextManagerConfig)
      (history : List ConversationMessage) (system_prompt session_key timeStr : String),
    (generateResume chat configured cfg history system_prompt = "" →
      performResumeCycle chat configured memAvail fileOk dbOk cfg history
          system_prompt session_key timeStr = (false, history))
    ∧ (generateResume chat configured cfg history system_prompt ≠ "" →
      performResumeCycle chat configured memAvail fileOk dbOk cfg history
          system_prompt session_key timeStr
        = (true, buildResumedHistory (generateResume chat configured cfg history system_prompt)
            (findLastRealUser history) system_prompt)) := by
  intro chat configured memAvail fileOk dbOk cfg history system_prompt session_key timeStr
  constructor
  · intro h
    simp only [performResumeCycle, h, ite_true, if_pos rfl]
  · intro h
    simp only [performResumeCycle, if_neg h]

/-- Witness for C3 (amended): a failing model makes the cycle a no-op, and a
succeeding one rebuilds the history. -/
theorem resume_cycle_amended_witness :
    performResumeCycle (fun _ => ⟨false, "", "boom"⟩) true true true true
        ContextManagerConfig.default [ConversationMessage.user "hi"] "S" "" "t"
      = (false, [ConversationMessage.user "hi"])
    ∧ performResumeCycle (fun _ => ⟨true, "R", ""⟩) true true true true
        ContextManagerConfig.default [ConversationMessage.user "hi"] "S" "" "t"
      = (true, buildResumedHistory "R" "hi" "S") := by
  constructor
  · exact (resume_cycle_amended (fun _ => ⟨false, "", "boom"⟩) true true true true
      ContextManagerConfig.default [ConversationMessage.user "hi"] "S" "" "t").1 (by decide)
  · have h := (resume_cycle_amended (fun _ => ⟨true, "R", ""⟩) true true true true
      ContextManagerConfig.default [ConversationMessage.user "hi"] "S" "" "t").2 (by decide)
    rfl

theorem startsWithL_iff (p : List Char) : ∀ l, startsWithL p l = true ↔ ∃ r, l = p ++ r := by
  induction p with
  | nil => intro l; simp [startsWithL]
  | cons c cs ih =>
    intro l
    cases l with
    | nil => simp [startsWithL]
    | cons d ds =>
      simp only [startsWithL, Bool.and_eq_true, decide_eq_true_eq, ih, List.cons_append,
        List.cons.injEq]
      constructor
      · rintro ⟨hcd, r, hr⟩
        exact ⟨r, hcd.symm, hr⟩
      · rintro ⟨r, hcd, hr⟩
        exact ⟨hcd.symm, r, hr⟩

theorem underAllowed_iff (d cp : String) : underAllowed d cp = true ↔ liesUnder d cp := by
  simp only [underAllowed, Bool.and_eq_true, Bool.or_eq_true, decide_eq_true_eq,
    startsWithL_iff, liesUnder]
  constructor
  · rintro ⟨⟨r, hr⟩, hend⟩
    refine ⟨r, hr, ?_⟩
    rcases hend with hlen | hch
    · left
      have : cp.data.length = d.data.length + r.length := by
        rw [hr, List.length_append]
      have hl2 : cp.length = cp.data.length := rfl
      have hl3 : d.length = d.data.length := rfl
      rw [hl2, hl3] at hlen
      have : r.length = 0 := by omega
      exact List.length_eq_zero.mp this
    · right
      cases r with
      | nil =>
        exfalso
        have hsp : cp.data.getD d.length ' ' = ' ' := by
          rw [hr, List.append_nil]
          have hdl : d.length = d.data.length := rfl
          rw [hdl]
          exact List.getD_eq_default _ _ (Nat.le_refl _)
        rw [hsp] at hch
        exact absurd hch (by decide)
      | cons c0 r2 =>
        refine ⟨r2, ?_⟩
        have hg : cp.data.getD d.length ' ' = c0 := by
          rw [hr]
          have hdl : d.length = d.data.length := rfl
          rw [hdl]
          rw [List.getD_append_right _ _ _ _ (Nat.le_refl _)]
          simp [List.getD]
        rw [hg] at hch
        rw [hch]
  · rintro ⟨r, hr, hend⟩
    refine ⟨⟨r, hr⟩, ?_⟩
    rcases hend with hnil | ⟨r2, hr2⟩
    · left
      have hl2 : cp.length = cp.data.length := rfl
      have hl3 : d.length = d.data.length := rfl
      rw [hl2, hl3, hr, hnil]
      simp
    · right
      have hdl : d.length = d.data.length := rfl
      rw [hr, hr2, hdl]
      rw [List.getD_append_right _ _ _ _ (Nat.le_refl _)]
      simp [List.getD]

/-- Counterexample for C7: with the sandbox inactive, `is_path_allowed`
returns true for a path under no allowed directory — the claimed equivalence
("returns true iff the path lies under an allowed directory") fails. -/
theorem sandbox_path_counterexample :
    SandboxSt.isPathAllowed (fun _ => none)
        ⟨false, "/root/.opencrank", []⟩ "/etc/passwd" = true
    ∧ ¬ (liesUnder "/root/.opencrank" "/etc/passwd"
        ∨ ∃ d, d ∈ ([] : List String) ∧ liesUnder d "/etc/passwd") := by
  constructor
  · decide
  · rintro (h | ⟨d, hd, _⟩)
    · exact absurd ((underAllowed_iff _ _).mpr h) (by decide)
    · exact absurd hd (by simp)

/-- C7 (amended): when the Sandbox is active, `is_path_allowed(p)` returns
true iff `p`, after path resolution (falling back to the raw path when
resolution fails), lies under the base directory or under one of the
directories registered via `allow_path`; when the Sandbox is inactive it
returns true for every path. -/
theorem sandbox_is_path_allowed_amended :
    ∀ (resolve : String → Option String) (sb : SandboxSt) (p : String),
    (sb.active = true →
      (SandboxSt.isPathAllowed resolve sb p = true ↔
        liesUnder sb.base_dir ((resolve p).getD p)
        ∨ ∃ d, d ∈ sb.extra_allowed_paths ∧ liesUnder d ((resolve p).getD p)))
    ∧ (sb.active = false → SandboxSt.isPathAllowed resolve sb p = true) := by
  intro resolve sb p
  constructor
  · intro hact
    have hne : ¬ sb.active = false := by rw [hact]; decide
    simp only [SandboxSt.isPathAllowed, if_neg hne]
    by_cases hb : underAllowed sb.base_dir ((resolve p).getD p) = true
    · simp only [if_pos hb]
      constructor
      · intro _
        exact Or.inl ((underAllowed_iff _ _).mp hb)
      · intro _
        trivial
    · simp only [if_neg hb]
      rw [List.any_eq_true]
      constructor
      · rintro ⟨d, hd, hu⟩
        exact Or.inr ⟨d, hd, (underAllowed_iff _ _).mp hu⟩
      · rintro (h | ⟨d, hd, hu⟩)
        · exact absurd ((underAllowed_iff _ _).mpr h) hb
        · exact ⟨d, hd, (underAllowed_iff _ _).mpr hu⟩
  · intro hina
    simp [SandboxSt.isPathAllowed, hina]

/-- Witness for C7 (amended): an active sandbox allows a path under the base
directory and a path under an extra directory registered before activation,
and rejects a foreign path. -/
theorem sandbox_is_path_allowed_amended_witness :
    (SandboxSt.isPathAllowed (fun _ => none)
        ⟨true, "/root/.opencrank", ["/opt/data"]⟩ "/root/.opencrank/jail/x" = true ↔
      liesUnder "/root/.opencrank" "/root/.opencrank/jail/x"
      ∨ ∃ d, d ∈ ["/opt/data"] ∧ liesUnder d "/root/.opencrank/jail/x")
    ∧ SandboxSt.isPathAllowed (fun _ => none) ⟨false, "/root/.opencrank", []⟩ "/anything" = true := by
  constructor
  · exact (sandbox_is_path_allowed_amended (fun _ => none)
      ⟨true, "/root/.opencrank", ["/opt/data"]⟩ "/root/.opencrank/jail/x").1 rfl
  · exact (sandbox_is_path_allowed_amended (fun _ => none)
      ⟨false, "/root/.opencrank", []⟩ "/anything").2 rfl

/-- Counterexample for C9: (1) a task with no due date (due_at = 0) is listed
FIRST, not last — 0 sorts before any positive due date; (2) ties on due_at
are broken by created_at ASCENDING, not descending.  In both outputs adjacent
elements violate the claimed order. -/
theorem task_list_order_counterexample :
    TaskStore.list
        [⟨"B", "b", "", "", "", 2, 100, false, 0⟩, ⟨"A", "a", "", "", "", 1, 0, false, 0⟩] false
      = [⟨"A", "a", "", "", "", 1, 0, false, 0⟩, ⟨"B", "b", "", "", "", 2, 100, false, 0⟩]
    ∧ specTaskLe ⟨"A", "a", "", "", "", 1, 0, false, 0⟩ ⟨"B", "b", "", "", "", 2, 100, false, 0⟩
      = false
    ∧ TaskStore.list
        [⟨"C", "c", "", "", "", 1, 5, false, 0⟩, ⟨"D", "d", "", "", "", 2, 5, false, 0⟩] false
      = [⟨"C", "c", "", "", "", 1, 5, false, 0⟩, ⟨"D", "d", "", "", "", 2, 5, false, 0⟩]
    ∧ specTaskLe ⟨"C", "c", "", "", "", 1, 5, false, 0⟩ ⟨"D", "d", "", "", "", 2, 5, false, 0⟩
      = false := by
  refine ⟨by decide, by decide, by decide, by decide⟩

theorem taskLe_total (a b : MemoryTask) : taskLe a b = true ∨ taskLe b a = true := by
  simp only [taskLe, Bool.or_eq_true, Bool.and_eq_true, decide_eq_true_eq]
  omega

theorem taskLe_trans (a b c : MemoryTask) (h1 : taskLe a b = true) (h2 : taskLe b c = true) :
    taskLe a c = true := by
  simp only [taskLe, Bool.or_eq_true, Bool.and_eq_true, decide_eq_true_eq] at h1 h2 ⊢
  omega

theorem insertLe_perm {α : Type} (le : α → α → Bool) (x : α) :
    ∀ l : List α, List.Perm (insertLe le x l) (x :: l) := by
  intro l
  induction l with
  | nil => exact List.Perm.refl _
  | cons y ys ih =>
    simp only [insertLe]
    split
    · exact List.Perm.refl _
    · exact List.Perm.trans (List.Perm.cons y ih) (List.Perm.swap x y ys)

theorem sortLe_perm {α : Type} (le : α → α → Bool) :
    ∀ l : List α, List.Perm (sortLe le l) l := by
  intro l
  induction l with
  | nil => exact List.Perm.refl _
  | cons x xs ih =>
    exact List.Perm.trans (insertLe_perm le x (sortLe le xs)) (List.Perm.cons x ih)

theorem insertLe_sorted (x : MemoryTask) :
    ∀ l : List MemoryTask, List.Pairwise (fun a b => taskLe a b = true) l →
      List.Pairwise (fun a b => taskLe a b = true) (insertLe taskLe x l) := by
  intro l
  induction l with
  | nil => intro _; exact List.pairwise_singleton _ _
  | cons y ys ih =>
    intro hp
    rcases List.pairwise_cons.mp hp with ⟨hy, hys⟩
    simp only [insertLe]
    split
    case _ hle =>
      refine List.pairwise_cons.mpr ⟨?_, hp⟩
      intro b hb
      rcases List.mem_cons.mp hb with hh | hh
      · rw [hh]; exact hle
      · exact taskLe_trans x y b hle (hy b hh)
    case _ hle =>
      have hyx : taskLe y x = true := by
        rcases taskLe_total x y with h | h
        · exact absurd h hle
        · exact h
      refine List.pairwise_cons.mpr ⟨?_, ih hys⟩
      intro b hb
      have hmem := (insertLe_perm taskLe x ys).mem_iff.mp hb
      rcases List.mem_cons.mp hmem with hh | hh
      · rw [hh]; exact hyx
      · exact hy b hh

theorem sortLe_sorted :
    ∀ l : List MemoryTask,
      List.Pairwise (fun a b => taskLe a b = true) (sortLe taskLe l) := by
  intro l
  induction l with
  | nil => exact List.Pairwise.nil
  | cons x xs ih => exact insertLe_sorted x (sortLe taskLe xs) ih

/-- C9 (amended): `TaskStore::list` returns exactly the rows of the table
(all rows, or the uncompleted ones when `include_completed` is false) ordered
by `due_at` ascending with ties broken by `created_at` ascending; tasks with
no due date (`due_at = 0`) therefore sort FIRST, not last. -/
theorem task_list_order_amended :
    ∀ (db : List MemoryTask) (ic : Bool),
      List.Pairwise (fun a b => taskLe a b = true) (TaskStore.list db ic)
      ∧ List.Perm (TaskStore.list db ic)
          (if ic then db else db.filter (fun t => t.completed = false)) := by
  intro db ic
  exact ⟨sortLe_sorted _, sortLe_perm _ _⟩

/-- Witness for C9 (amended) at a concrete two-row table. -/
theorem task_list_order_amended_witness :
    List.Pairwise (fun a b => taskLe a b = true)
      (TaskStore.list
        [⟨"B", "b", "", "", "", 2, 100, false, 0⟩, ⟨"A", "a", "", "", "", 1, 0, false, 0⟩] false)
    ∧ List.Perm
      (TaskStore.list
        [⟨"B", "b", "", "", "", 2, 100, false, 0⟩, ⟨"A", "a", "", "", "", 1, 0, false, 0⟩] false)
      (List.filter (fun t => t.completed = false)
        [⟨"B", "b", "", "", "", 2, 100, false, 0⟩, ⟨"A", "a", "", "", "", 1, 0, false, 0⟩]) :=
  task_list_order_amended
    [⟨"B", "b", "", "", "", 2, 100, false, 0⟩, ⟨"A", "a", "", "", "", 1, 0, false, 0⟩] false

/-- C8: every memory FTS query is sanitized before reaching the index — no
banned character `"'*()` survives in any sanitized token, the query sent to
the index is the quoted surviving tokens joined with ` OR `, and a query
whose sanitized form is empty returns no rows (an empty list, not an error). -/
theorem memory_search_sanitized :
    ∀ (q : String),
      (∀ t, t ∈ ftsTokens q → ∀ c, c ∈ t → c ∉ ftsBannedChars)
      ∧ sanitizeFtsQuery q = String.mk (List.intercalate " OR ".data
          ((ftsTokens q).map (fun t => '"' :: (t ++ ['"']))))
      ∧ (∀ (db : List MemoryEntry) (limit : Nat),
          ftsTokens q = [] → memorySearch db q limit = []) := by
  intro q
  refine ⟨?_, rfl, ?_⟩
  · intro t ht c hc
    rcases List.mem_filter.mp ht with ⟨ht2, _⟩
    rcases List.mem_map.mp ht2 with ⟨t0, _, ht0⟩
    rw [← ht0] at hc
    rcases List.mem_filter.mp hc with ⟨_, hcb⟩
    intro hmem
    rw [Bool.not_eq_true'] at hcb
    exact absurd ((char_contains_iff ftsBannedChars c).mpr hmem) (by rw [hcb]; decide)
  · intro db limit h
    simp [memorySearch, h]

/-- Witness for C8: a query of pure FTS syntax characters sanitizes to
nothing and returns no rows; a plain query's tokens survive stripped. -/
theorem memory_search_sanitized_witness :
    memorySearch [⟨"e1", "hello world", "general", "", "", "", 5, 0, 0⟩] "\"*() ('" 10 = []
    ∧ ftsTokens "\"*() ('" = [] := by
  constructor
  · exact (memory_search_sanitized "\"*() ('").2.2
      [⟨"e1", "hello world", "general", "", "", "", 5, 0, 0⟩] 10 (by decide)
  · decide

end OpenCrank
